import Mathlib

/-! HAR viewer (`webhar.go`): a shallow embedding and its verified properties

The definitions below follow `src/webhar.go` function by function.

Modelling conventions
* A Go `string` is a Lean `String`, that is, only well-formed UTF-8 text is
  represented; byte-wise loops of the Go code run over the characters.
* A Go slice is a `List`; `int` counters that are bounded by a slice length
  are `Nat`, other `int` values are `Int`.
* The package-level variable `currentHARData *HAR` is an explicit
  `Option HAR` that every handler receives and returns.
* A Go `map[string]bool` that only stores `true` is the list of its keys;
  a `range` over the map may visit the keys in any order, so a function
  whose result depends on that order is a relation between its argument
  and the results it can return.
* Functions of the Go standard library (`net/url`, `encoding/json`,
  `encoding/csv`, `fmt`) and of `golang.org/x/text` are not part of the
  repository; each one used by the program has a model below that is
  marked as such, and the code table of GBK is a parameter. `extractDomain`
  and `uploadHandler` take the library function as an argument, and what
  is proved about them for an arbitrary argument does not depend on the
  model.
-/

namespace Hars

/-! ## Data model (`webhar.go`, the struct declarations) -/

/-- Decimal value `(-1)^neg * mant * 10^exp10` of a JSON number; a Go
`float64` field holds the double nearest to it. The rounding is not
applied here, the field keeps the exact decimal value, so two literals of
one double, such as 1.5 and 1.50, are different values here. -/
structure Float64 where
  neg : Bool
  mant : Nat
  exp10 : Int
  deriving DecidableEq, Repr

/-- Go struct `Header`. -/
structure Header where
  Name : String
  Value : String
  deriving DecidableEq, Repr

/-- Go struct `Request`. -/
structure Request where
  Method : String
  URL : String
  Headers : List Header
  deriving DecidableEq, Repr

/-- Go struct `Response`. -/
structure Response where
  Status : Int
  StatusText : String
  Headers : List Header
  deriving DecidableEq, Repr

/-- Go struct `Entry`. -/
structure Entry where
  Request : Request
  Response : Response
  Time : Float64
  deriving DecidableEq, Repr

/-- Go struct `Creator`. -/
structure Creator where
  Name : String
  Version : String
  deriving DecidableEq, Repr

/-- Go struct `Page`. -/
structure Page where
  ID : String
  Title : String
  StartTime : String
  deriving DecidableEq, Repr

/-- Go struct `Log`. -/
structure Log where
  Version : String
  Creator : Creator
  Pages : List Page
  Entries : List Entry
  deriving DecidableEq, Repr

/-- Go struct `HAR`. -/
structure HAR where
  Log : Log
  deriving DecidableEq, Repr

/-! ## The method counting loop of `uploadHandler` -/

/-- The three local counters `getCount`, `postCount`, `otherCount`. -/
structure MethodCounts where
  getCount : Nat
  postCount : Nat
  otherCount : Nat
  deriving DecidableEq, Repr

/-- One iteration of the loop body: the `switch entry.Request.Method`. -/
def countStep (c : MethodCounts) (entry : Entry) : MethodCounts :=
  if entry.Request.Method = "GET" then
    { c with getCount := c.getCount + 1 }
  else if entry.Request.Method = "POST" then
    { c with postCount := c.postCount + 1 }
  else
    { c with otherCount := c.otherCount + 1 }

/-- The whole loop `for _, entry := range harData.Log.Entries`, started
from the three zero counters. -/
def countMethods (harData : HAR) : MethodCounts :=
  harData.Log.Entries.foldl countStep ⟨0, 0, 0⟩

/-- An entry that carries only a request method and URL. -/
def mkEntry (method url : String) : Entry :=
  { Request := { Method := method, URL := url, Headers := [] },
    Response := { Status := 0, StatusText := "", Headers := [] },
    Time := ⟨false, 0, 0⟩ }

/-- A document that carries only the given entries. -/
def mkHAR (entries : List Entry) : HAR :=
  { Log := { Version := "", Creator := ⟨"", ""⟩, Pages := [], Entries := entries } }

/-! ## `formatFileSize` -/

/-- Rounds the quotient `num / den` to the nearest natural number, a tie
going to the even neighbour. -/
def roundHalfEven (num den : Nat) : Nat :=
  let q := num / den
  let r := num % den
  if den < 2 * r ∨ (2 * r = den ∧ q % 2 = 1) then q + 1 else q

/-- Model of the Go conversion `float64(size)` for `0 ≤ size < 2^63`: the
value of the nearest double, ties to even. Below `2^53` the conversion is
exact; above, the double keeps the 53 leading bits. -/
def float64OfNat (n : Nat) : Nat :=
  if n < 2 ^ 53 then n
  else
    let s := Nat.log2 n - 52
    roundHalfEven n (2 ^ s) * 2 ^ s

/-- Number of hundredths that `%.2f` prints for the value `num / den`:
`strconv` rounds the exact decimal expansion to two places, half to even. -/
def hundredths (num den : Nat) : Nat := roundHalfEven (100 * num) den

/-- The text of `h` hundredths: integer part, a point, two digits. -/
def fixed2 (h : Nat) : String :=
  toString (h / 100) ++ "." ++ String.mk [Nat.digitChar (h % 100 / 10), Nat.digitChar (h % 10)]

/-- Model of `fmt.Sprintf("%.2f", x)` for a double `x = num / den ≥ 0`
(`den` a power of two, so the quotient of two doubles is exact). -/
def sprintfF2 (num den : Nat) : String := fixed2 (hundredths num den)

/-- Constant `KB = 1 << 10`. -/
def KB : Nat := 2 ^ 10

/-- Constant `MB = 1 << 20`. -/
def MB : Nat := 2 ^ 20

/-- Constant `GB = 1 << 30`. -/
def GB : Nat := 2 ^ 30

/-- Go `formatFileSize(size int) string`; `%d` is `toString` on `Int`. -/
def formatFileSize (size : Int) : String :=
  if size ≥ GB then sprintfF2 (float64OfNat size.toNat) GB ++ " GB"
  else if size ≥ MB then sprintfF2 (float64OfNat size.toNat) MB ++ " MB"
  else if size ≥ KB then sprintfF2 (float64OfNat size.toNat) KB ++ " KB"
  else toString size ++ " byte"

/-! ## `generateCSV`: the text written by `encoding/csv` -/

/-- Model of `unicode.IsSpace`. -/
def unicodeIsSpace (r : Char) : Bool :=
  let n := r.toNat
  (0x09 ≤ n && n ≤ 0x0D) || n == 0x20 || n == 0x85 || n == 0xA0 || n == 0x1680
    || (0x2000 ≤ n && n ≤ 0x200A) || n == 0x2028 || n == 0x2029 || n == 0x202F
    || n == 0x205F || n == 0x3000

/-- Model of `(*csv.Writer).fieldNeedsQuotes` with `Comma = ','`. -/
def fieldNeedsQuotes (field : String) : Bool :=
  if field = "" then false
  else if field = "\\." then true
  else if field.toList.any (fun c => c == '\n' || c == '\r' || c == '"' || c == ',') then true
  else
    match field.toList with
    | [] => false
    | r1 :: _ => unicodeIsSpace r1

/-- The quoting loop of `(*csv.Writer).Write` with `UseCRLF = false`: a
quote is written twice, `\r` and `\n` are written as they are, every other
character is copied. -/
def csvEscape : List Char → List Char
  | [] => []
  | c :: cs =>
    if c = '"' then '"' :: '"' :: csvEscape cs
    else if c = '\r' then '\r' :: csvEscape cs
    else if c = '\n' then '\n' :: csvEscape cs
    else c :: csvEscape cs

/-- What `Write` appends for one field. -/
def csvField (field : String) : String :=
  if fieldNeedsQuotes field then String.mk ('"' :: csvEscape field.toList ++ ['"'])
  else field

/-- The fields of a record as `Write` appends them, a comma before every
field but the first. -/
def csvFields : List String → String
  | [] => ""
  | [f] => csvField f
  | f :: fs => csvField f ++ "," ++ csvFields fs

/-- Model of `writer.Write(record)` on a writer over `buf` (`Comma = ','`,
`UseCRLF = false`): the buffer after the call, once flushed. Writes to a
`bytes.Buffer` do not fail. -/
def csvWrite (buf : String) (record : List String) : String :=
  buf ++ csvFields record ++ "\n"

/-- The content of `buf` in `generateCSV` after `writer.Flush()`: the
header record, then one record per domain. -/
def generateCSVText (domains : List String) : String :=
  domains.foldl (fun buf domain => csvWrite buf [domain]) (csvWrite "" ["域名"])

/-- The records of a one-column table as text: every record is followed by
a line end. -/
def csvLines : List String → String
  | [] => ""
  | r :: rs => r ++ "\n" ++ csvLines rs

/-- Number of line ends in a text. -/
def lineCount (s : String) : Nat := s.toList.count '\n'

/-! ## `net/url`: a model of `url.Parse`

`url.Parse` belongs to the Go standard library. The model follows the
code of `net/url` (as of Go 1.22) for everything that decides whether
`Parse` returns an error and what `URL.Host` is; the other fields of the
result are not computed. Later releases check bracketed hosts more
strictly and reject some that this version accepts. Properties of the program that do not depend on
what the library answers are proved for an arbitrary parse function. -/

deriving instance DecidableEq for Except

/-- The part of Go's `url.URL` that the program reads. -/
structure URL where
  Scheme : String
  Host : String
  deriving DecidableEq, Repr

/-- Model of `strings.Cut(s, sep)` for a one-character separator: the text
before the first `sep`, the text after it, and whether `sep` occurs. -/
def cut (sep : Char) : List Char → List Char × List Char × Bool
  | [] => ([], [], false)
  | c :: cs =>
    if c = sep then ([], cs, true)
    else
      let r := cut sep cs
      (c :: r.1, r.2.1, r.2.2)

/-- Model of `strings.LastIndex(s, sep)` as a split: the text before the
last `sep` and the text from that `sep` on, when `sep` occurs. -/
def cutLast (sep : Char) : List Char → Option (List Char × List Char)
  | [] => none
  | c :: cs =>
    match cutLast sep cs with
    | some (before, fromSep) => some (c :: before, fromSep)
    | none => if c = sep then some ([], c :: cs) else none

/-- Model of `strings.HasPrefix` on character lists. -/
def startsWith : List Char → List Char → Bool
  | _, [] => true
  | [], _ :: _ => false
  | c :: cs, p :: ps => c == p && startsWith cs ps

/-- Model of `stringContainsCTLByte`. -/
def stringContainsCTLByte (s : List Char) : Bool :=
  s.any fun c => c.toNat < 0x20 || c.toNat == 0x7f

/-- ASCII letter test of `getScheme` and `shouldEscape`. -/
def isAlpha (c : Char) : Bool :=
  ('a'.toNat ≤ c.toNat && c.toNat ≤ 'z'.toNat) || ('A'.toNat ≤ c.toNat && c.toNat ≤ 'Z'.toNat)

/-- ASCII digit test. -/
def isDigit (c : Char) : Bool :=
  '0'.toNat ≤ c.toNat && c.toNat ≤ '9'.toNat

/-- Model of `ishex`. -/
def ishex (c : Char) : Bool :=
  isDigit c || ('a'.toNat ≤ c.toNat && c.toNat ≤ 'f'.toNat)
    || ('A'.toNat ≤ c.toNat && c.toNat ≤ 'F'.toNat)

/-- Model of `unhex`. -/
def unhex (c : Char) : Nat :=
  if isDigit c then c.toNat - '0'.toNat
  else if 'a'.toNat ≤ c.toNat && c.toNat ≤ 'f'.toNat then c.toNat - 'a'.toNat + 10
  else if 'A'.toNat ≤ c.toNat && c.toNat ≤ 'F'.toNat then c.toNat - 'A'.toNat + 10
  else 0

/-- The loop of `getScheme`; `i` is the index of the head of the third
argument in `rawURL`. Returns scheme and remaining text. -/
def getSchemeLoop (rawURL : List Char) : Nat → List Char → Except String (List Char × List Char)
  | _, [] => .ok ([], rawURL)
  | i, c :: cs =>
    if isAlpha c then getSchemeLoop rawURL (i + 1) cs
    else if isDigit c || c == '+' || c == '-' || c == '.' then
      if i = 0 then .ok ([], rawURL) else getSchemeLoop rawURL (i + 1) cs
    else if c == ':' then
      if i = 0 then .error "missing protocol scheme" else .ok (rawURL.take i, cs)
    else .ok ([], rawURL)

/-- Model of `getScheme`. -/
def getScheme (rawURL : List Char) : Except String (List Char × List Char) :=
  getSchemeLoop rawURL 0 rawURL

/-- Model of `shouldEscape(c, encodeHost)` for an ASCII character. -/
def shouldEscapeHost (c : Char) : Bool :=
  if isAlpha c || isDigit c then false
  else if "!$&'()*+,;=:[]<>\"".toList.contains c then false
  else if "-_.~".toList.contains c then false
  else true

/-- The encodings of `unescape` that `url.Parse` uses. -/
inductive Encoding
  | encodePath | encodeHost | encodeZone | encodeUserPassword | encodeFragment
  deriving DecidableEq, Repr

/-- The checking loop of `unescape`: `none` when every escape and every
character is accepted in mode `mode`, otherwise the error. -/
def unescapeCheck (mode : Encoding) : List Char → Option String
  | [] => none
  | '%' :: c1 :: c2 :: cs =>
    if !(ishex c1 && ishex c2) then some "invalid URL escape"
    else if mode = .encodeHost && unhex c1 < 8 && !(c1 == '2' && c2 == '5') then
      some "invalid URL escape"
    else if mode = .encodeZone && !(c1 == '2' && c2 == '5')
        && unhex c1 * 16 + unhex c2 != 0x20
        && (0x80 ≤ unhex c1 * 16 + unhex c2
            || shouldEscapeHost (Char.ofNat (unhex c1 * 16 + unhex c2))) then
      some "invalid URL escape"
    else unescapeCheck mode cs
  | '%' :: _ => some "invalid URL escape"
  | c :: cs =>
    if (mode = .encodeHost || mode = .encodeZone) && c.toNat < 0x80 && shouldEscapeHost c then
      some "invalid character in host name"
    else unescapeCheck mode cs

/-- UTF-8 encoding of a character, as a list of byte values. -/
def utf8Bytes (c : Char) : List Nat :=
  let n := c.toNat
  if n < 0x80 then [n]
  else if n < 0x800 then [0xC0 + n / 64, 0x80 + n % 64]
  else if n < 0x10000 then [0xE0 + n / 4096, 0x80 + n / 64 % 64, 0x80 + n % 64]
  else [0xF0 + n / 262144, 0x80 + n / 4096 % 64, 0x80 + n / 64 % 64, 0x80 + n % 64]

/-- The bytes of the result of `unescape` (second loop): escapes replaced
by the byte they denote, other characters by their UTF-8 bytes. -/
def unescapeBytes : List Char → List Nat
  | [] => []
  | '%' :: c1 :: c2 :: cs => (unhex c1 * 16 + unhex c2) :: unescapeBytes cs
  | c :: cs => utf8Bytes c ++ unescapeBytes cs

/-- UTF-8 continuation byte. -/
def isCont (b : Nat) : Bool := 0x80 ≤ b && b ≤ 0xBF

/-- Reads a Go string given by its bytes as text, rune by rune as
`utf8.DecodeRune` does; a byte that starts no valid encoding is
represented by U+FFFD. The first argument bounds the number of steps. -/
def decodeUTF8 : Nat → List Nat → List Char
  | 0, _ => []
  | _, [] => []
  | fuel + 1, b0 :: rest =>
    if b0 < 0x80 then Char.ofNat b0 :: decodeUTF8 fuel rest
    else
      match rest with
      | b1 :: b2 :: b3 :: rest3 =>
        if 0xC2 ≤ b0 && b0 ≤ 0xDF && isCont b1 then
          Char.ofNat ((b0 - 0xC0) * 64 + (b1 - 0x80)) :: decodeUTF8 fuel (b2 :: b3 :: rest3)
        else if 0xE0 ≤ b0 && b0 ≤ 0xEF && isCont b1 && isCont b2
            && !(b0 == 0xE0 && b1 < 0xA0) && !(b0 == 0xED && 0xA0 ≤ b1) then
          Char.ofNat ((b0 - 0xE0) * 4096 + (b1 - 0x80) * 64 + (b2 - 0x80))
            :: decodeUTF8 fuel (b3 :: rest3)
        else if 0xF0 ≤ b0 && b0 ≤ 0xF4 && isCont b1 && isCont b2 && isCont b3
            && !(b0 == 0xF0 && b1 < 0x90) && !(b0 == 0xF4 && 0x90 ≤ b1) then
          Char.ofNat ((b0 - 0xF0) * 262144 + (b1 - 0x80) * 4096 + (b2 - 0x80) * 64 + (b3 - 0x80))
            :: decodeUTF8 fuel rest3
        else Char.ofNat 0xFFFD :: decodeUTF8 fuel rest
      | [b1, b2] =>
        if 0xC2 ≤ b0 && b0 ≤ 0xDF && isCont b1 then
          Char.ofNat ((b0 - 0xC0) * 64 + (b1 - 0x80)) :: decodeUTF8 fuel [b2]
        else if 0xE0 ≤ b0 && b0 ≤ 0xEF && isCont b1 && isCont b2
            && !(b0 == 0xE0 && b1 < 0xA0) && !(b0 == 0xED && 0xA0 ≤ b1) then
          [Char.ofNat ((b0 - 0xE0) * 4096 + (b1 - 0x80) * 64 + (b2 - 0x80))]
        else Char.ofNat 0xFFFD :: decodeUTF8 fuel rest
      | [b1] =>
        if 0xC2 ≤ b0 && b0 ≤ 0xDF && isCont b1 then
          [Char.ofNat ((b0 - 0xC0) * 64 + (b1 - 0x80))]
        else Char.ofNat 0xFFFD :: decodeUTF8 fuel rest
      | [] => [Char.ofNat 0xFFFD]

/-- Model of `unescape(s, mode)`. Bytes of the result that are not UTF-8 are
represented by U+FFFD, so two hosts that differ only in such bytes are one
string here. -/
def unescape (s : List Char) (mode : Encoding) : Except String (List Char) :=
  match unescapeCheck mode s with
  | some err => .error err
  | none =>
    if s.contains '%' then
      let bytes := unescapeBytes s
      .ok (decodeUTF8 bytes.length bytes)
    else .ok s

/-- Model of `validOptionalPort`. -/
def validOptionalPort : List Char → Bool
  | [] => true
  | c :: cs => c == ':' && cs.all isDigit

/-- Model of `strings.Index(s, "%25")` as a split: the text before the
first occurrence of `%25` and the text from it on. -/
def cutZone : List Char → Option (List Char × List Char)
  | [] => none
  | c :: cs =>
    if startsWith (c :: cs) ['%', '2', '5'] then some ([], c :: cs)
    else
      match cutZone cs with
      | some (before, fromZone) => some (c :: before, fromZone)
      | none => none

/-- Model of `parseHost`. -/
def parseHost (host : List Char) : Except String (List Char) :=
  if startsWith host ['['] then
    match cutLast ']' host with
    | none => .error "missing ']' in host"
    | some (inBrackets, fromBracket) =>
      if !validOptionalPort (fromBracket.drop 1) then .error "invalid port after host"
      else
        match cutZone inBrackets with
        | some (beforeZone, zone) =>
          match unescape beforeZone .encodeHost with
          | .error e => .error e
          | .ok host1 =>
            match unescape zone .encodeZone with
            | .error e => .error e
            | .ok host2 =>
              match unescape fromBracket .encodeHost with
              | .error e => .error e
              | .ok host3 => .ok (host1 ++ host2 ++ host3)
        | none => unescape host .encodeHost
  else
    match cutLast ':' host with
    | some (_, colonPort) =>
      if !validOptionalPort colonPort then .error "invalid port after host"
      else unescape host .encodeHost
    | none => unescape host .encodeHost

/-- Model of `validUserinfo`. -/
def validUserinfo (s : List Char) : Bool :=
  s.all fun r => isAlpha r || isDigit r || "-._:~!$&'()*+,;=%@".toList.contains r

/-- Model of `parseAuthority`, returning the host only. -/
def parseAuthority (authority : List Char) : Except String (List Char) :=
  match cutLast '@' authority with
  | none => parseHost authority
  | some (userinfo, fromAt) =>
    match parseHost (fromAt.drop 1) with
    | .error e => .error e
    | .ok host =>
      if !validUserinfo userinfo then .error "net/url: invalid userinfo"
      else
        let up := cut ':' userinfo
        match unescape up.1 .encodeUserPassword with
        | .error e => .error e
        | .ok _ =>
          match unescape up.2.1 .encodeUserPassword with
          | .error e => .error e
          | .ok _ => .ok host

/-- Model of the unexported `parse(rawURL, false)`. -/
def parseNoFragment (rawURL : List Char) : Except String URL :=
  if stringContainsCTLByte rawURL then .error "net/url: invalid control character in URL"
  else if rawURL = ['*'] then .ok ⟨"", ""⟩
  else
    match getScheme rawURL with
    | .error e => .error e
    | .ok (scheme, rest0) =>
      let scheme := scheme.map Char.toLower
      let rest := (cut '?' rest0).1
      if !startsWith rest ['/'] && scheme ≠ [] then .ok ⟨String.mk scheme, ""⟩
      else if !startsWith rest ['/'] && (cut '/' rest).1.contains ':' then
        .error "first path segment in URL cannot contain colon"
      else if (scheme ≠ [] || !startsWith rest ['/', '/', '/']) && startsWith rest ['/', '/'] then
        let a := cut '/' (rest.drop 2)
        let path := if a.2.2 then '/' :: a.2.1 else []
        match parseAuthority a.1 with
        | .error e => .error e
        | .ok host =>
          match unescape path .encodePath with
          | .error e => .error e
          | .ok _ => .ok ⟨String.mk scheme, String.mk host⟩
      else
        match unescape rest .encodePath with
        | .error e => .error e
        | .ok _ => .ok ⟨String.mk scheme, ""⟩

/-- Model of `url.Parse`. -/
def urlParse (rawURL : String) : Except String URL :=
  let c := cut '#' rawURL.toList
  match parseNoFragment c.1 with
  | .error e => .error e
  | .ok url =>
    if c.2.1 = [] then .ok url
    else
      match unescape c.2.1 .encodeFragment with
      | .error e => .error e
      | .ok _ => .ok url

/-! ## `extractDomain` and `extractUniqueDomains` -/

/-- Go `extractDomain(urlStr string) string`, over the parse function
`parse` standing for `url.Parse`. -/
def extractDomain (parse : String → Except String URL) (urlStr : String) : String :=
  match parse urlStr with
  | .error _ => ""
  | .ok parsedURL => parsedURL.Host

/-- The statement `domainMap[domain] = true`. The map `map[string]bool` only
ever stores `true`, so it is represented by the list of its keys, each key
once; the position of a key in the list is not observable. -/
def domainMapSet (domainMap : List String) (domain : String) : List String :=
  if domain ∈ domainMap then domainMap else domainMap ++ [domain]

/-- The first loop of `extractUniqueDomains`: the keys of `domainMap` after
`for _, entry := range harData.Log.Entries`. -/
def buildDomainMap (parse : String → Except String URL) (entries : List Entry) : List String :=
  entries.foldl
    (fun domainMap entry =>
      let domain := extractDomain parse entry.Request.URL
      if domain ≠ "" then domainMapSet domainMap domain else domainMap)
    []

/-- Go `extractUniqueDomains(harData *HAR) []string` as the relation between
the document and a list the call can return. The second loop
`for domain := range domainMap` appends every key once, in the order in
which the runtime iterates over the map; Go leaves that order unspecified
and changes it from one run of the loop to the next, so every arrangement
of the keys is a possible result. -/
def extractUniqueDomains (parse : String → Except String URL) (harData : HAR)
    (domains : List String) : Prop :=
  domains.Perm (buildDomainMap parse harData.Log.Entries)

/-- Decision procedure for `extractUniqueDomains`. -/
instance extractUniqueDomainsDecidable (parse : String → Except String URL) (harData : HAR)
    (domains : List String) : Decidable (extractUniqueDomains parse harData domains) := by
  unfold extractUniqueDomains
  infer_instance

/-- Spec wording of the domain set: the hosts in first-seen order, a host
that was seen before is not inserted again. -/
def firstSeen : List String → List String
  | [] => []
  | x :: xs => x :: (firstSeen xs).filter (fun y => y ≠ x)

/-- Spec wording of `extractDomains`: the non-empty request hosts of the
entries in first-seen order, later repeats removed. -/
def firstSeenDomains (parse : String → Except String URL) (harData : HAR) : List String :=
  firstSeen ((harData.Log.Entries.map
    (fun entry => extractDomain parse entry.Request.URL)).filter (fun d => d ≠ ""))

/-- The document of the specification example: three GET entries with the
URLs `https://a.com/1`, `https://b.com/2`, `https://a.com/3`. -/
def exampleABA : HAR :=
  mkHAR [mkEntry "GET" "https://a.com/1", mkEntry "GET" "https://b.com/2",
    mkEntry "GET" "https://a.com/3"]

/-! ## `encoding/json`: a model of `json.Unmarshal` into `HAR`

`json.Unmarshal` belongs to the Go standard library. The model has the two
phases of the library: the scan of the text (`checkValid`), which fails on
anything that is not one JSON value, and the decoding of that value into
the struct. Decoding follows the rules of `encoding/json`: object keys are
matched with the `json` tags without regard to case, unknown keys are
skipped, `null` leaves a field as it is (a slice becomes nil), a value of
the wrong JSON type is an error, a repeated key is decoded into what the
earlier one left. `int` is 64 bits wide. -/

/-- A JSON number literal: sign, integer part, fraction digits (value and
count) and exponent, each as written. -/
structure JsonNumber where
  neg : Bool
  int : Nat
  frac : Option (Nat × Nat)
  exp : Option Int
  deriving DecidableEq, Repr

/-- A JSON value. -/
inductive Json where
  | null
  | bool (b : Bool)
  | num (n : JsonNumber)
  | str (s : String)
  | arr (elems : List Json)
  | obj (members : List (String × Json))
  deriving Repr

/-- JSON white space as the scanner of `encoding/json` accepts it. -/
def isSpace (c : Char) : Bool :=
  c == ' ' || c == '\t' || c == '\r' || c == '\n'

/-- Drops leading white space. -/
def skipSpace : List Char → List Char
  | [] => []
  | c :: cs => if isSpace c then skipSpace cs else c :: cs

/-- Value of a run of decimal digits, its length, and the text after it. -/
def readDigits : List Char → Nat → Nat → Nat × Nat × List Char
  | [], v, n => (v, n, [])
  | c :: cs, v, n =>
    if isDigit c then readDigits cs (v * 10 + (c.toNat - '0'.toNat)) (n + 1) else (v, n, c :: cs)

/-- Scans a number literal (after an optional minus sign was seen). -/
def readNumber (neg : Bool) (s : List Char) : Option (JsonNumber × List Char) :=
  match s with
  | [] => none
  | c :: cs =>
    if !isDigit c then none
    else
      let ip : Nat × List Char :=
        if c == '0' then (0, cs)
        else let r := readDigits (c :: cs) 0 0; (r.1, r.2.2)
      let fr : Option (Option (Nat × Nat) × List Char) :=
        match ip.2 with
        | '.' :: ds =>
          let r := readDigits ds 0 0
          if r.2.1 = 0 then none else some (some (r.1, r.2.1), r.2.2)
        | rest => some (none, rest)
      match fr with
      | none => none
      | some (frac, rest) =>
        let readExp (es : List Char) (sign : Int) : Option (JsonNumber × List Char) :=
          let r := readDigits es 0 0
          if r.2.1 = 0 then none else some (⟨neg, ip.1, frac, some (sign * r.1)⟩, r.2.2)
        match rest with
        | 'e' :: '+' :: es => readExp es 1
        | 'e' :: '-' :: es => readExp es (-1)
        | 'e' :: es => readExp es 1
        | 'E' :: '+' :: es => readExp es 1
        | 'E' :: '-' :: es => readExp es (-1)
        | 'E' :: es => readExp es 1
        | _ => some (⟨neg, ip.1, frac, none⟩, rest)

/-- Scans the inside of a string literal up to the closing quote: the
characters and `\u` code units it denotes, and the text after the quote. -/
def readString : List Char → Option (List (Char ⊕ Nat) × List Char)
  | [] => none
  | '"' :: cs => some ([], cs)
  | '\\' :: 'u' :: a :: b :: c :: d :: cs =>
    if ishex a && ishex b && ishex c && ishex d then
      match readString cs with
      | some (us, rest) =>
        some (.inr (((unhex a * 16 + unhex b) * 16 + unhex c) * 16 + unhex d) :: us, rest)
      | none => none
    else none
  | '\\' :: e :: cs =>
    let put (ch : Char) : Option (List (Char ⊕ Nat) × List Char) :=
      match readString cs with
      | some (us, rest) => some (.inl ch :: us, rest)
      | none => none
    if e == '"' then put '"' else if e == '\\' then put '\\' else if e == '/' then put '/'
    else if e == 'b' then put (Char.ofNat 8) else if e == 'f' then put (Char.ofNat 12)
    else if e == 'n' then put '\n' else if e == 'r' then put '\r' else if e == 't' then put '\t'
    else none
  | c :: cs =>
    if c.toNat < 0x20 || c == '\\' then none
    else
      match readString cs with
      | some (us, rest) => some (.inl c :: us, rest)
      | none => none

/-- Second half of `unquote`: a surrogate pair of `\u` escapes becomes one
character, a surrogate without its partner becomes U+FFFD. -/
def joinUnits : List (Char ⊕ Nat) → List Char
  | [] => []
  | .inl c :: us => c :: joinUnits us
  | .inr hi :: .inr lo :: us =>
    if 0xD800 ≤ hi && hi < 0xDC00 && 0xDC00 ≤ lo && lo < 0xE000 then
      Char.ofNat (0x10000 + (hi - 0xD800) * 1024 + (lo - 0xDC00)) :: joinUnits us
    else if 0xD800 ≤ hi && hi < 0xE000 then Char.ofNat 0xFFFD :: joinUnits (.inr lo :: us)
    else Char.ofNat hi :: joinUnits (.inr lo :: us)
  | .inr u :: us =>
    if 0xD800 ≤ u && u < 0xE000 then Char.ofNat 0xFFFD :: joinUnits us
    else Char.ofNat u :: joinUnits us

/-- Nesting limit of the scanner (`maxNestingDepth`). -/
def maxNestingDepth : Nat := 10000

mutual
/-- Scans one JSON value; the first argument bounds the recursion, the
second is the current nesting depth. -/
def readValue : Nat → Nat → List Char → Option (Json × List Char)
  | 0, _, _ => none
  | fuel + 1, depth, s =>
    match skipSpace s with
    | '{' :: cs =>
      if depth + 1 > maxNestingDepth then none
      else
        match skipSpace cs with
        | '}' :: rest => some (.obj [], rest)
        | cs1 =>
          match readMembers fuel (depth + 1) cs1 with
          | some (ms, rest) => some (.obj ms, rest)
          | none => none
    | '[' :: cs =>
      if depth + 1 > maxNestingDepth then none
      else
        match skipSpace cs with
        | ']' :: rest => some (.arr [], rest)
        | cs1 =>
          match readElems fuel (depth + 1) cs1 with
          | some (xs, rest) => some (.arr xs, rest)
          | none => none
    | '"' :: cs =>
      match readString cs with
      | some (us, rest) => some (.str (String.mk (joinUnits us)), rest)
      | none => none
    | '-' :: cs =>
      match readNumber true cs with
      | some (n, rest) => some (.num n, rest)
      | none => none
    | c :: cs =>
      if startsWith (c :: cs) "true".toList then some (.bool true, (c :: cs).drop 4)
      else if startsWith (c :: cs) "false".toList then some (.bool false, (c :: cs).drop 5)
      else if startsWith (c :: cs) "null".toList then some (.null, (c :: cs).drop 4)
      else
        match readNumber false (c :: cs) with
        | some (n, rest) => some (.num n, rest)
        | none => none
    | [] => none
/-- Scans `value (, value)* ]`. -/
def readElems : Nat → Nat → List Char → Option (List Json × List Char)
  | 0, _, _ => none
  | fuel + 1, depth, s =>
    match readValue fuel depth s with
    | none => none
    | some (x, rest) =>
      match skipSpace rest with
      | ']' :: rest1 => some ([x], rest1)
      | ',' :: rest1 =>
        match readElems fuel depth rest1 with
        | some (xs, rest2) => some (x :: xs, rest2)
        | none => none
      | _ => none
/-- Scans `"key" : value (, "key" : value)* }`. -/
def readMembers : Nat → Nat → List Char → Option (List (String × Json) × List Char)
  | 0, _, _ => none
  | fuel + 1, depth, s =>
    match skipSpace s with
    | '"' :: cs =>
      match readString cs with
      | none => none
      | some (us, rest) =>
        match skipSpace rest with
        | ':' :: rest1 =>
          match readValue fuel depth rest1 with
          | none => none
          | some (x, rest2) =>
            match skipSpace rest2 with
            | '}' :: rest3 => some ([(String.mk (joinUnits us), x)], rest3)
            | ',' :: rest3 =>
              match readMembers fuel depth rest3 with
              | some (ms, rest4) => some ((String.mk (joinUnits us), x) :: ms, rest4)
              | none => none
            | _ => none
        | _ => none
    | _ => none
end

/-- Model of `checkValid` followed by the scan of the decoder: the JSON
value that the text denotes, `none` when the text is not one JSON value
surrounded by optional white space. Of two consecutive steps of the
scanning functions at least one consumes a character, so twice the length
of the text bounds the recursion. -/
def parseJson (data : String) : Option Json :=
  match readValue (2 * data.length + 2) 0 data.toList with
  | some (j, rest) => if skipSpace rest = [] then some j else none
  | none => none


/-- Case folding of the decoder for object keys (`foldName`): ASCII letters
without regard to case; the Kelvin sign folds to `k`, the long s to `s`. -/
def foldName (key : String) : List Char :=
  key.toList.map fun c =>
    if c.toNat = 0x212A then 'k' else if c.toNat = 0x17F then 's' else c.toLower

/-- Decoding into a `string` field. -/
def decodeString (cur : String) : Json → Except String String
  | .null => .ok cur
  | .str s => .ok s
  | _ => .error "json: cannot unmarshal into Go value of type string"

/-- Decoding into an `int` field: `strconv.ParseInt` of the literal. -/
def decodeInt (cur : Int) : Json → Except String Int
  | .null => .ok cur
  | .num n =>
    let v : Int := if n.neg then -(n.int : Int) else n.int
    if n.frac.isNone && n.exp.isNone && decide (-(2 : Int) ^ 63 ≤ v) && decide (v < (2 : Int) ^ 63)
    then .ok v
    else .error "json: cannot unmarshal number into Go value of type int"
  | _ => .error "json: cannot unmarshal into Go value of type int"

/-- Whether `mant * 10^exp10` rounds to an infinite double, that is,
whether it reaches `2^1024 - 2^970`. -/
def float64Overflows (mant : Nat) (exp10 : Int) : Bool :=
  if mant = 0 then false
  else if 0 ≤ exp10 then
    if 400 < exp10 then true else decide (2 ^ 1024 - 2 ^ 970 ≤ mant * 10 ^ exp10.toNat)
  else decide ((2 ^ 1024 - 2 ^ 970) * 10 ^ (-exp10).toNat ≤ mant)

/-- Decoding into a `float64` field: `strconv.ParseFloat` of the literal,
which fails when the value is out of range. -/
def decodeFloat64 (cur : Float64) : Json → Except String Float64
  | .null => .ok cur
  | .num n =>
    let fracVal : Nat := match n.frac with | some (v, _) => v | none => 0
    let fracLen : Nat := match n.frac with | some (_, k) => k | none => 0
    let mant := n.int * 10 ^ fracLen + fracVal
    let exp10 : Int := (match n.exp with | some e => e | none => 0) - (fracLen : Int)
    if float64Overflows mant exp10 then
      .error "json: cannot unmarshal number into Go value of type float64"
    else .ok ⟨n.neg, mant, exp10⟩
  | _ => .error "json: cannot unmarshal into Go value of type float64"

/-- Decoding the members of an object into a struct, one after the other;
`field` decodes one member into the field that its folded key names. -/
def decodeMembers {α : Type} (field : α → List Char → Json → Except String α) (cur : α) :
    List (String × Json) → Except String α
  | [] => .ok cur
  | (k, v) :: ms =>
    match field cur (foldName k) v with
    | .error e => .error e
    | .ok next => decodeMembers field next ms

/-- Decoding into a struct. -/
def decodeStruct {α : Type} (field : α → List Char → Json → Except String α) (cur : α) :
    Json → Except String α
  | .null => .ok cur
  | .obj ms => decodeMembers field cur ms
  | _ => .error "json: cannot unmarshal into Go value of struct type"

/-- Decoding the elements of an array into a slice: element `i` is decoded
into the element the slice already has at index `i`, or into a zero value
when the slice is shorter. Not modelled: when a repeated key first shortens
a slice and a later one extends it again, Go decodes over the element left
in the backing array, the model over the zero value. -/
def decodeElems {α : Type} (elem : α → Json → Except String α) (zero : α) :
    List α → List Json → Except String (List α)
  | _, [] => .ok []
  | cur, x :: xs =>
    match elem (cur.headD zero) x with
    | .error e => .error e
    | .ok y =>
      match decodeElems elem zero cur.tail xs with
      | .error e => .error e
      | .ok ys => .ok (y :: ys)

/-- Decoding into a slice field. -/
def decodeSlice {α : Type} (elem : α → Json → Except String α) (zero : α) (cur : List α) :
    Json → Except String (List α)
  | .null => .ok []
  | .arr xs => decodeElems elem zero cur xs
  | _ => .error "json: cannot unmarshal into Go value of slice type"

/-- Decoding into `Header`. -/
def decodeHeader : Header → Json → Except String Header :=
  decodeStruct fun h key v =>
    if key = "name".toList then (decodeString h.Name v).map fun x => { h with Name := x }
    else if key = "value".toList then (decodeString h.Value v).map fun x => { h with Value := x }
    else .ok h

/-- Decoding into `Request`. -/
def decodeRequest : Request → Json → Except String Request :=
  decodeStruct fun r key v =>
    if key = "method".toList then (decodeString r.Method v).map fun x => { r with Method := x }
    else if key = "url".toList then (decodeString r.URL v).map fun x => { r with URL := x }
    else if key = "headers".toList then
      (decodeSlice decodeHeader ⟨"", ""⟩ r.Headers v).map fun x => { r with Headers := x }
    else .ok r

/-- Decoding into `Response`. -/
def decodeResponse : Response → Json → Except String Response :=
  decodeStruct fun r key v =>
    if key = "status".toList then (decodeInt r.Status v).map fun x => { r with Status := x }
    else if key = "statustext".toList then
      (decodeString r.StatusText v).map fun x => { r with StatusText := x }
    else if key = "headers".toList then
      (decodeSlice decodeHeader ⟨"", ""⟩ r.Headers v).map fun x => { r with Headers := x }
    else .ok r

/-- The zero value of `Entry`. -/
def zeroEntry : Entry :=
  { Request := ⟨"", "", []⟩, Response := ⟨0, "", []⟩, Time := ⟨false, 0, 0⟩ }

/-- Decoding into `Entry`. -/
def decodeEntry : Entry → Json → Except String Entry :=
  decodeStruct fun e key v =>
    if key = "request".toList then
      (decodeRequest e.Request v).map fun x => { e with Request := x }
    else if key = "response".toList then
      (decodeResponse e.Response v).map fun x => { e with Response := x }
    else if key = "time".toList then (decodeFloat64 e.Time v).map fun x => { e with Time := x }
    else .ok e

/-- Decoding into `Creator`. -/
def decodeCreator : Creator → Json → Except String Creator :=
  decodeStruct fun c key v =>
    if key = "name".toList then (decodeString c.Name v).map fun x => { c with Name := x }
    else if key = "version".toList then
      (decodeString c.Version v).map fun x => { c with Version := x }
    else .ok c

/-- Decoding into `Page`. -/
def decodePage : Page → Json → Except String Page :=
  decodeStruct fun p key v =>
    if key = "id".toList then (decodeString p.ID v).map fun x => { p with ID := x }
    else if key = "title".toList then (decodeString p.Title v).map fun x => { p with Title := x }
    else if key = "starteddatetime".toList then
      (decodeString p.StartTime v).map fun x => { p with StartTime := x }
    else .ok p

/-- Decoding into `Log`. -/
def decodeLog : Log → Json → Except String Log :=
  decodeStruct fun l key v =>
    if key = "version".toList then (decodeString l.Version v).map fun x => { l with Version := x }
    else if key = "creator".toList then
      (decodeCreator l.Creator v).map fun x => { l with Creator := x }
    else if key = "pages".toList then
      (decodeSlice decodePage ⟨"", "", ""⟩ l.Pages v).map fun x => { l with Pages := x }
    else if key = "entries".toList then
      (decodeSlice decodeEntry zeroEntry l.Entries v).map fun x => { l with Entries := x }
    else .ok l

/-- Decoding into `HAR`. -/
def decodeHAR : HAR → Json → Except String HAR :=
  decodeStruct fun h key v =>
    if key = "log".toList then (decodeLog h.Log v).map fun x => { h with Log := x }
    else .ok h

/-- The zero value of `HAR`, the state of `var harData HAR`. -/
def zeroHAR : HAR :=
  { Log := { Version := "", Creator := ⟨"", ""⟩, Pages := [], Entries := [] } }

/-- Model of `json.Unmarshal(content, &harData)` for a freshly declared
`harData`: the error, or the decoded document. -/
def jsonUnmarshal (content : String) : Except String HAR :=
  match parseJson content with
  | none => .error "invalid character"
  | some j => decodeHAR zeroHAR j

/-! ## The HTTP handlers

A handler is a function from the request and the value of the package
variable `currentHARData` to the new value of that variable and the
response it writes. `template.New("har").Parse(htmlTemplate)` parses a
constant and does not depend on the request; it is taken to succeed. -/

/-- The file part of a multipart form: `header.Filename` and the result of
`ioutil.ReadAll(file)`. -/
structure UploadedFile where
  Filename : String
  content : Except String String

/-- What `uploadHandler` reads from `*http.Request`: the method, the error
of `r.ParseMultipartForm(10 << 20)` if any, and the result of
`r.FormFile("harfile")`. -/
structure UploadRequest where
  Method : String
  multipartForm : Option String
  harfile : Except String UploadedFile

/-- The map passed to `tmpl.Execute`; a key that the handler does not set is
`none`. -/
structure TemplateData where
  HARData : Option HAR
  FileName : Option String
  FileSize : Option String
  MethodCountText : String
  deriving DecidableEq, Repr

/-- What a handler writes to the `http.ResponseWriter`. -/
inductive HttpResponse where
  | redirect (location : String) (status : Nat)
  | error (message : String) (status : Nat)
  | page (data : TemplateData)
  deriving DecidableEq, Repr

/-- `http.StatusFound`. -/
def StatusFound : Nat := 302

/-- `http.StatusInternalServerError`. -/
def StatusInternalServerError : Nat := 500

/-- The text `methodCountText` that `uploadHandler` builds from the three
counters: one label per non-zero counter, joined by four spaces. -/
def methodCountText (c : MethodCounts) : String :=
  let methodCounts : List String :=
    (if c.getCount > 0 then
      ["<span class=\"method-count get\" onclick=\"sortByMethod('GET')\">GET "
        ++ toString c.getCount ++ "个</span>"] else [])
    ++ (if c.postCount > 0 then
      ["<span class=\"method-count post\" onclick=\"sortByMethod('POST')\">POST "
        ++ toString c.postCount ++ "个</span>"] else [])
    ++ (if c.otherCount > 0 then
      ["<span class=\"method-count other\" onclick=\"sortByMethod('OTHER')\">其他 "
        ++ toString c.otherCount ++ "个</span>"] else [])
  "    ".intercalate methodCounts

/-- Go `uploadHandler`, over the function `unmarshal` standing for
`json.Unmarshal(content, &harData)` on a fresh `harData`. -/
def uploadHandler (unmarshal : String → Except String HAR) (r : UploadRequest)
    (currentHARData : Option HAR) : Option HAR × HttpResponse :=
  if r.Method ≠ "POST" then (currentHARData, .redirect "/" StatusFound)
  else
    match r.multipartForm with
    | some err => (currentHARData, .error ("解析表单失败: " ++ err) StatusInternalServerError)
    | none =>
      match r.harfile with
      | .error err =>
        (currentHARData, .error ("获取文件失败: " ++ err) StatusInternalServerError)
      | .ok file =>
        match file.content with
        | .error err =>
          (currentHARData, .error ("读取文件失败: " ++ err) StatusInternalServerError)
        | .ok content =>
          match unmarshal content with
          | .error _ => (currentHARData, .redirect "/?error=1" StatusFound)
          | .ok harData =>
            (some harData,
              .page
                { HARData := some harData,
                  FileName := some file.Filename,
                  FileSize := some (formatFileSize content.utf8ByteSize),
                  MethodCountText := methodCountText (countMethods harData) })

/-- Go `reloadHandler`. -/
def reloadHandler (_currentHARData : Option HAR) : Option HAR × HttpResponse :=
  (none, .redirect "/" StatusFound)

/-- Go `indexHandler`. -/
def indexHandler (currentHARData : Option HAR) : Option HAR × HttpResponse :=
  (currentHARData,
    .page { HARData := none, FileName := none, FileSize := none, MethodCountText := "" })

/-- A POST request to `/upload` whose form parses and whose field `harfile`
holds a readable file with the given name and content. -/
def postUpload (filename content : String) : UploadRequest :=
  { Method := "POST", multipartForm := none, harfile := .ok ⟨filename, .ok content⟩ }

/-- A POST request to `/upload` whose form parses and has no file under
`harfile`: `r.FormFile` returns the error `err`. -/
def postWithoutFile (err : String) : UploadRequest :=
  { Method := "POST", multipartForm := none, harfile := .error err }

/-- The map that `indexHandler` passes to the template. -/
def emptyShell : TemplateData :=
  { HARData := none, FileName := none, FileSize := none, MethodCountText := "" }

/-- A document with one GET entry for `https://a.com/1`, and the JSON text
that decodes to it. -/
def oneEntryHAR : HAR := mkHAR [mkEntry "GET" "https://a.com/1"]

/-- JSON text of `oneEntryHAR`. -/
def oneEntryJSON : String :=
  "\x7b\"log\":\x7b\"entries\":[\x7b\"request\":\x7b\"method\":\"GET\",\"url\":\"https://a.com/1\"\x7d\x7d]\x7d\x7d"

/-! ## The page template (`htmlTemplate`)

Only the parts of the template that decide what is shown are modelled: the
block `{{if .HARData}} ... {{end}}` (template lines 516 to 590), which holds
the summary and the table, the `range` over the entries inside it, the
class attribute of the status (line 550) and the four status rules of the
style sheet (lines 188 to 199). -/

/-- Whether the block `{{if .HARData}}` is rendered: a `nil` value is
empty for the template, a struct value is not. -/
def rendersListing (data : TemplateData) : Bool := data.HARData.isSome

/-- The entries that get a table row, in order: the `range` over
`.HARData.Log.Entries` inside the block. -/
def listingRows (data : TemplateData) : List Entry :=
  match data.HARData with
  | none => []
  | some harData => harData.Log.Entries

/-- The class that line 550 gives to the status of an entry, besides
`status-code`: the text `status-` followed by the status code as the
template prints an `int`. -/
def statusClass (status : Int) : String := "status-" ++ toString status

/-- The colour that the style sheet gives to a class of the form
`status-...`: the rules `.status-200`, `.status-300`, `.status-400` and
`.status-500`; no other rule matches such a class. -/
def statusColor (cls : String) : Option String :=
  if cls = "status-200" then some "green"
  else if cls = "status-300" then some "orange"
  else if cls = "status-400" then some "red"
  else if cls = "status-500" then some "darkred"
  else none

/-- Value of a list of decimal digits. -/
def digitsVal (l : List Char) : Nat :=
  l.foldl (fun v c => 10 * v + (c.toNat - 48)) 0

/-! ## `generateCSV`: the transcoding to GBK

The encoder `simplifiedchinese.GBK.NewEncoder()` and `transform.Bytes`
belong to `golang.org/x/text`. The code table of GBK is library data and is
a parameter; the loop of the encoder around the table is modelled. -/

/-- The code table of GBK: `encode r` is the two-byte code of a rune outside
ASCII other than the euro sign, `none` when the rune has no code;
`decode b1 b2` is the rune of a two-byte code. -/
structure GBKTable where
  encode : Char → Option (Nat × Nat)
  decode : Nat → Nat → Option Char

/-- One step of the loop of `gbkEncoder.Transform`: the bytes written for
the rune `r`, `none` when the encoder stops with the error that the rune is
not in the repertoire. ASCII is copied, the euro sign is the byte `0x80`. -/
def gbkEncodeRune (t : GBKTable) (r : Char) : Option (List Nat) :=
  if r.toNat < 0x80 then some [r.toNat]
  else if r = '€' then some [0x80]
  else
    match t.encode r with
    | some (b1, b2) => some [b1, b2]
    | none => none

/-- Model of `gbkBuf, _, _ := transform.Bytes(encoder, src)`: the encoder
runs rune by rune; at the first rune without code it returns an error and
`transform.Bytes` returns the bytes written so far. The caller drops the
error. -/
def gbkTransform (t : GBKTable) : List Char → List Nat
  | [] => []
  | r :: rs =>
    match gbkEncodeRune t r with
    | some bytes => bytes ++ gbkTransform t rs
    | none => []

/-- Go `generateCSV(domains []string) []byte`, over the code table. -/
def generateCSV (t : GBKTable) (domains : List String) : List Nat :=
  gbkTransform t (generateCSVText domains).toList

/-- The entries of the GBK table for the characters of the examples: 域 is
`D3 F2`, 名 is `C3 FB`, 中 is `D6 D0`, 文 is `CE C4`. A Hangul syllable,
such as 한 or 국, and a rune outside the Basic Multilingual Plane, such as
U+1F600, have no GBK code. -/
def gbkFragment : GBKTable where
  encode := fun r =>
    if r = '域' then some (0xD3, 0xF2)
    else if r = '名' then some (0xC3, 0xFB)
    else if r = '中' then some (0xD6, 0xD0)
    else if r = '文' then some (0xCE, 0xC4)
    else none
  decode := fun b1 b2 =>
    if b1 = 0xD3 ∧ b2 = 0xF2 then some '域'
    else if b1 = 0xC3 ∧ b2 = 0xFB then some '名'
    else if b1 = 0xD6 ∧ b2 = 0xD0 then some '中'
    else if b1 = 0xCE ∧ b2 = 0xC4 then some '文'
    else none

/-- The character U+1F600, which has no GBK code. -/
def grinningFace : Char := Char.ofNat 0x1F600

/-! ## Reading the export back

The repository writes the export and never reads it. The decoder and the
reader below are what the round trip of the specification needs: "decoding
the result back through the declared encoding" and reading "a standard
comma-separated row format" in which "fields containing the delimiter,
quote character, or line break are wrapped in quotes with internal quotes
doubled". -/

/-- Trail bytes of a two-byte GBK code. -/
def gbkTrail (b : Nat) : Bool := (0x40 ≤ b && b < 0x7F) || (0x80 ≤ b && b < 0xFF)

/-- A code table is well formed when every code it assigns has a lead byte
from `0x81` to `0xFE` and a trail byte, and decodes to the rune it was
assigned to. -/
def GBKTable.WellFormed (t : GBKTable) : Prop :=
  ∀ r b1 b2, t.encode r = some (b1, b2) →
    0x81 ≤ b1 ∧ b1 < 0xFF ∧ gbkTrail b2 = true ∧ t.decode b1 b2 = some r

/-- Modelled from the spec: the decoder of the declared encoding, which the
repository does not contain. A byte below `0x80` is ASCII, `0x80` is the
euro sign, any other byte starts a two-byte code that is looked up in the
table; what is no code decodes to U+FFFD. -/
def gbkDecode (t : GBKTable) : List Nat → List Char
  | [] => []
  | [b0] =>
    if b0 < 0x80 then [Char.ofNat b0]
    else if b0 = 0x80 then ['€']
    else [Char.ofNat 0xFFFD]
  | b0 :: b1 :: rest =>
    if b0 < 0x80 then Char.ofNat b0 :: gbkDecode t (b1 :: rest)
    else if b0 = 0x80 then '€' :: gbkDecode t (b1 :: rest)
    else if b0 < 0xFF && gbkTrail b1 then
      (match t.decode b0 b1 with
        | some r => r
        | none => Char.ofNat 0xFFFD) :: gbkDecode t rest
    else Char.ofNat 0xFFFD :: gbkDecode t (b1 :: rest)

/-- Modelled from the spec: where a reader of the comma-separated format
stands: at the start of a field, inside an unquoted field, inside a quoted
field, after a quote inside a quoted field, after a carriage return that
follows a closing quote. -/
inductive CsvMode where
  | fieldStart
  | unquoted
  | quoted
  | quoteSeen
  | quoteCR
  deriving DecidableEq, Repr

/-- Modelled from the spec: the state of the reader: the rows read so far,
the fields of the current row, the characters of the current field, and the
mode. -/
structure CsvReader where
  rows : List (List String)
  row : List String
  field : List Char
  mode : CsvMode
  deriving DecidableEq, Repr

/-- A carriage return right before a line end belongs to the line end. -/
def stripCR (field : List Char) : List Char :=
  if field.getLast? = some '\r' then field.dropLast else field

/-- The reader closes the current field at a comma. -/
def endField (st : CsvReader) (field : List Char) : CsvReader :=
  { rows := st.rows, row := st.row ++ [String.mk field], field := [], mode := .fieldStart }

/-- The reader closes the current row at a line end; a line without any
character is no row. -/
def endRow (st : CsvReader) (field : List Char) (wasQuoted : Bool) : CsvReader :=
  if wasQuoted = false ∧ st.row = [] ∧ field = [] then
    { rows := st.rows, row := [], field := [], mode := .fieldStart }
  else
    { rows := st.rows ++ [st.row ++ [String.mk field]], row := [], field := [],
      mode := .fieldStart }

/-- Modelled from the spec: one character of input. Fields are separated by
commas and rows by line ends; a field that starts with a quote runs to the
next single quote, two quotes in it stand for one; a quote inside an
unquoted field and a character other than a separator after a closing quote
are errors. -/
def csvStep (st : CsvReader) (c : Char) : Option CsvReader :=
  match st.mode with
  | .fieldStart =>
    if c = '"' then some { st with mode := .quoted, field := [] }
    else if c = ',' then some (endField st [])
    else if c = '\n' then some (endRow st [] false)
    else some { st with mode := .unquoted, field := [c] }
  | .unquoted =>
    if c = '"' then none
    else if c = ',' then some (endField st st.field)
    else if c = '\n' then some (endRow st (stripCR st.field) false)
    else some { st with field := st.field ++ [c] }
  | .quoted =>
    if c = '"' then some { st with mode := .quoteSeen }
    else some { st with field := st.field ++ [c] }
  | .quoteSeen =>
    if c = '"' then some { st with mode := .quoted, field := st.field ++ ['"'] }
    else if c = ',' then some (endField st st.field)
    else if c = '\n' then some (endRow st st.field true)
    else if c = '\r' then some { st with mode := .quoteCR }
    else none
  | .quoteCR => if c = '\n' then some (endRow st st.field true) else none

/-- The reader over a text. -/
def csvRun : CsvReader → List Char → Option CsvReader
  | st, [] => some st
  | st, c :: cs =>
    match csvStep st c with
    | some next => csvRun next cs
    | none => none

/-- The rows at the end of the input; a quoted field that is still open is
an error. -/
def csvFinish (st : CsvReader) : Option (List (List String)) :=
  match st.mode with
  | .fieldStart => if st.row = [] then some st.rows else some (endRow st [] false).rows
  | .unquoted => some (endRow st st.field false).rows
  | .quoted => none
  | .quoteSeen => some (endRow st st.field true).rows
  | .quoteCR => none

/-- Modelled from the spec: reading a text as a table of rows of fields. -/
def csvRead (text : String) : Option (List (List String)) :=
  match csvRun ⟨[], [], [], .fieldStart⟩ text.toList with
  | some st => csvFinish st
  | none => none

/-- The reader state between two rows. -/
def betweenRows (rows : List (List String)) : CsvReader :=
  ⟨rows, [], [], .fieldStart⟩

/-! ## Lemmas on the counting loop -/

theorem countStep_sum (c : MethodCounts) (e : Entry) :
    (countStep c e).getCount + (countStep c e).postCount + (countStep c e).otherCount
      = c.getCount + c.postCount + c.otherCount + 1 := by
  unfold countStep
  split_ifs <;> simp <;> omega

theorem foldl_countStep_sum (es : List Entry) (c : MethodCounts) :
    (es.foldl countStep c).getCount + (es.foldl countStep c).postCount
        + (es.foldl countStep c).otherCount
      = c.getCount + c.postCount + c.otherCount + es.length := by
  induction es generalizing c with
  | nil => simp
  | cons e es ih =>
    simp only [List.foldl_cons, List.length_cons]
    rw [ih, countStep_sum]
    omega

theorem countStep_get (c : MethodCounts) (e : Entry) :
    (countStep c e).getCount
      = c.getCount + if e.Request.Method = "GET" then 1 else 0 := by
  unfold countStep
  by_cases h1 : e.Request.Method = "GET"
  · simp [h1]
  · by_cases h2 : e.Request.Method = "POST" <;> simp [h1, h2]

theorem countStep_post (c : MethodCounts) (e : Entry) :
    (countStep c e).postCount
      = c.postCount + if e.Request.Method = "POST" then 1 else 0 := by
  unfold countStep
  by_cases h1 : e.Request.Method = "GET"
  · have h2 : e.Request.Method ≠ "POST" := by rw [h1]; decide
    simp [h1, h2]
  · by_cases h2 : e.Request.Method = "POST" <;> simp [h1, h2]

theorem countStep_other (c : MethodCounts) (e : Entry) :
    (countStep c e).otherCount
      = c.otherCount
        + if e.Request.Method ≠ "GET" ∧ e.Request.Method ≠ "POST" then 1 else 0 := by
  unfold countStep
  by_cases h1 : e.Request.Method = "GET"
  · simp [h1]
  · by_cases h2 : e.Request.Method = "POST" <;> simp [h1, h2]

theorem foldl_countStep_get (es : List Entry) (c : MethodCounts) :
    (es.foldl countStep c).getCount
      = c.getCount + es.countP (fun e => decide (e.Request.Method = "GET")) := by
  induction es generalizing c with
  | nil => simp
  | cons e es ih =>
    rw [List.foldl_cons, ih, countStep_get, List.countP_cons]
    simp only [decide_eq_true_eq]
    omega

theorem foldl_countStep_post (es : List Entry) (c : MethodCounts) :
    (es.foldl countStep c).postCount
      = c.postCount + es.countP (fun e => decide (e.Request.Method = "POST")) := by
  induction es generalizing c with
  | nil => simp
  | cons e es ih =>
    rw [List.foldl_cons, ih, countStep_post, List.countP_cons]
    simp only [decide_eq_true_eq]
    omega

theorem foldl_countStep_other (es : List Entry) (c : MethodCounts) :
    (es.foldl countStep c).otherCount
      = c.otherCount + es.countP (fun e =>
          decide (e.Request.Method ≠ "GET" ∧ e.Request.Method ≠ "POST")) := by
  induction es generalizing c with
  | nil => simp
  | cons e es ih =>
    rw [List.foldl_cons, ih, countStep_other, List.countP_cons]
    simp only [decide_eq_true_eq]
    omega

/-! ## Lemmas on `formatFileSize` -/

theorem digitChar_isDigit (d : Nat) (h : d < 10) : (Nat.digitChar d).isDigit = true := by
  interval_cases d <;> rfl

theorem toDigitsCore_isDigit (fuel : Nat) : ∀ (n : Nat) (acc : List Char),
    (∀ c ∈ acc, c.isDigit = true) →
    ∀ c ∈ Nat.toDigitsCore 10 fuel n acc, c.isDigit = true := by
  induction fuel with
  | zero => intro n acc hacc; simpa [Nat.toDigitsCore] using hacc
  | succ fuel ih =>
    intro n acc hacc
    have hd : (Nat.digitChar (n % 10)).isDigit = true :=
      digitChar_isDigit _ (Nat.mod_lt _ (by decide))
    have hacc2 : ∀ c ∈ Nat.digitChar (n % 10) :: acc, c.isDigit = true := by
      intro c hc
      rcases List.mem_cons.1 hc with rfl | hc
      · exact hd
      · exact hacc c hc
    simp only [Nat.toDigitsCore]
    split_ifs
    · exact hacc2
    · exact ih _ _ hacc2

theorem toString_nat_isDigit (n : Nat) : ∀ c ∈ (toString n).toList, c.isDigit = true := by
  have h := toDigitsCore_isDigit (n + 1) n [] (by simp)
  simpa [toString, Nat.repr, Nat.toDigits, List.asString] using h

theorem roundHalfEven_near (num den : Nat) (hden : 0 < den) :
    2 * num ≤ 2 * (roundHalfEven num den * den) + den
    ∧ 2 * (roundHalfEven num den * den) ≤ 2 * num + den := by
  have hdm := Nat.div_add_mod num den
  have hr := Nat.mod_lt num hden
  have hcomm : den * (num / den) = num / den * den := Nat.mul_comm _ _
  unfold roundHalfEven
  simp only
  split_ifs with h
  · rw [Nat.add_mul, Nat.one_mul]
    rcases h with h | ⟨h, _⟩ <;> omega
  · push_neg at h
    omega

theorem float64OfNat_small (n : Nat) (h : n < 2 ^ 53) : float64OfNat n = n := by
  unfold float64OfNat
  rw [if_pos h]

theorem float64OfNat_near (n : Nat) :
    2 ^ 53 * float64OfNat n ≤ 2 ^ 53 * n + n
    ∧ 2 ^ 53 * n ≤ 2 ^ 53 * float64OfNat n + n := by
  by_cases h : n < 2 ^ 53
  · rw [float64OfNat_small n h]
    omega
  · have hn : n ≠ 0 := by
      intro h0
      rw [h0] at h
      exact h (by decide)
    have hlog : 53 ≤ n.log2 := (Nat.le_log2 hn).2 (Nat.le_of_not_lt h)
    have hpow : 2 ^ (n.log2 - 52) * 2 ^ 52 ≤ n := by
      rw [← Nat.pow_add, Nat.sub_add_cancel (by omega)]
      exact Nat.log2_self_le hn
    have hnear := roundHalfEven_near n (2 ^ (n.log2 - 52)) (Nat.pos_pow_of_pos _ (by decide))
    unfold float64OfNat
    rw [if_neg h]
    simp only
    generalize roundHalfEven n (2 ^ (n.log2 - 52)) * 2 ^ (n.log2 - 52) = f at hnear ⊢
    generalize 2 ^ (n.log2 - 52) = d at hnear hpow
    norm_num at hpow ⊢
    omega

theorem formatFileSize_cases (n : Nat) :
    formatFileSize n =
      if n < KB then toString n ++ " byte"
      else if n < MB then fixed2 (hundredths (float64OfNat n) KB) ++ " KB"
      else if n < GB then fixed2 (hundredths (float64OfNat n) MB) ++ " MB"
      else fixed2 (hundredths (float64OfNat n) GB) ++ " GB" := by
  unfold formatFileSize sprintfF2
  simp only [KB, MB, GB, Int.toNat_ofNat]
  by_cases h1 : n < 2 ^ 10
  · have a1 : ¬ ((n : Int) ≥ ((2 ^ 30 : Nat) : Int)) := by norm_num; omega
    have a2 : ¬ ((n : Int) ≥ ((2 ^ 20 : Nat) : Int)) := by norm_num; omega
    have a3 : ¬ ((n : Int) ≥ ((2 ^ 10 : Nat) : Int)) := by norm_num; omega
    rw [if_neg a1, if_neg a2, if_neg a3, if_pos h1]
    rfl
  · by_cases h2 : n < 2 ^ 20
    · have a1 : ¬ ((n : Int) ≥ ((2 ^ 30 : Nat) : Int)) := by norm_num; omega
      have a2 : ¬ ((n : Int) ≥ ((2 ^ 20 : Nat) : Int)) := by norm_num; omega
      have a3 : ((n : Int) ≥ ((2 ^ 10 : Nat) : Int)) := by norm_num; omega
      rw [if_neg a1, if_neg a2, if_pos a3, if_neg h1, if_pos h2]
    · by_cases h3 : n < 2 ^ 30
      · have a1 : ¬ ((n : Int) ≥ ((2 ^ 30 : Nat) : Int)) := by norm_num; omega
        have a2 : ((n : Int) ≥ ((2 ^ 20 : Nat) : Int)) := by norm_num; omega
        rw [if_neg a1, if_pos a2, if_neg h1, if_neg h2, if_pos h3]
      · have a1 : ((n : Int) ≥ ((2 ^ 30 : Nat) : Int)) := by norm_num; omega
        rw [if_pos a1, if_neg h1, if_neg h2, if_neg h3]

/-! ## Lemmas on the CSV text -/

theorem foldl_csvWrite (ds : List String) (buf : String) :
    ds.foldl (fun buf domain => csvWrite buf [domain]) buf
      = buf ++ csvLines (ds.map csvField) := by
  induction ds generalizing buf with
  | nil => simp [csvLines]
  | cons d ds ih =>
    simp only [List.foldl_cons, List.map_cons, csvLines]
    rw [ih]
    simp [csvWrite, csvFields, String.append_assoc]

theorem csvField_plain (d : String) (h : fieldNeedsQuotes d = false) : csvField d = d := by
  simp [csvField, h]

theorem map_csvField_plain (ds : List String) (h : ∀ d ∈ ds, fieldNeedsQuotes d = false) :
    ds.map csvField = ds := by
  induction ds with
  | nil => rfl
  | cons d ds ih =>
    simp only [List.map_cons]
    rw [csvField_plain d (h d (List.mem_cons_self _ _)),
      ih (fun x hx => h x (List.mem_cons_of_mem _ hx))]

theorem plain_no_newline (d : String) (h : fieldNeedsQuotes d = false) :
    d.toList.count '\n' = 0 := by
  rw [List.count_eq_zero]
  intro hmem
  unfold fieldNeedsQuotes at h
  split_ifs at h with h1 h2 h3
  · subst h1; simp at hmem
  · exact h3 (List.any_eq_true.2 ⟨'\n', hmem, by simp⟩)

theorem lineCount_csvLines (ds : List String) (h : ∀ d ∈ ds, fieldNeedsQuotes d = false) :
    lineCount (csvLines ds) = ds.length := by
  induction ds with
  | nil => rfl
  | cons d ds ih =>
    have h1 := plain_no_newline d (h d (List.mem_cons_self _ _))
    have h2 := ih (fun x hx => h x (List.mem_cons_of_mem _ hx))
    simp only [lineCount] at h2 ⊢
    simp only [csvLines, String.toList, String.data_append, List.count_append,
      List.length_cons] at h2 ⊢
    rw [h2]
    simp only [String.toList] at h1
    rw [h1]
    simp [Nat.add_comm]

/-! ## Lemmas on the domain map -/

theorem mem_firstSeen (xs : List String) (y : String) : y ∈ firstSeen xs ↔ y ∈ xs := by
  induction xs with
  | nil => simp [firstSeen]
  | cons x xs ih =>
    simp only [firstSeen, List.mem_cons, List.mem_filter, ih, decide_eq_true_eq]
    by_cases h : y = x <;> simp [h]

theorem firstSeen_nodup (xs : List String) : (firstSeen xs).Nodup := by
  induction xs with
  | nil => simp [firstSeen]
  | cons x xs ih =>
    simp only [firstSeen, List.nodup_cons]
    exact ⟨by simp [List.mem_filter], ih.filter _⟩

theorem foldl_domainMapSet (hs : List String) (m : List String) :
    hs.foldl domainMapSet m = m ++ (firstSeen hs).filter (fun y => decide (y ∉ m)) := by
  induction hs generalizing m with
  | nil => simp [firstSeen]
  | cons x xs ih =>
    simp only [List.foldl_cons, firstSeen]
    rw [ih]
    by_cases hx : x ∈ m
    · have hset : domainMapSet m x = m := by simp [domainMapSet, hx]
      rw [hset, List.filter_cons, if_neg (by simpa using hx), List.filter_filter]
      congr 1
      apply List.filter_congr
      intro y _
      by_cases hy : y ∈ m
      · simp [hy]
      · have : y ≠ x := fun h => hy (h ▸ hx)
        simp [hy, this]
    · have hset : domainMapSet m x = m ++ [x] := by simp [domainMapSet, hx]
      rw [hset, List.filter_cons, if_pos (by simpa using hx), List.filter_filter,
        List.append_assoc]
      congr 1
      simp only [List.singleton_append, List.cons.injEq, true_and]
      apply List.filter_congr
      intro y _
      by_cases hy : y ∈ m <;> by_cases hyx : y = x <;> simp [hy, hyx]

theorem buildDomainMap_foldl (parse : String → Except String URL) (es : List Entry)
    (m : List String) :
    es.foldl
        (fun domainMap entry =>
          let domain := extractDomain parse entry.Request.URL
          if domain ≠ "" then domainMapSet domainMap domain else domainMap) m
      = ((es.map (fun entry => extractDomain parse entry.Request.URL)).filter
          (fun d => d ≠ "")).foldl domainMapSet m := by
  induction es generalizing m with
  | nil => rfl
  | cons e es ih =>
    simp only [List.foldl_cons, List.map_cons]
    rw [ih]
    by_cases h : extractDomain parse e.Request.URL = ""
    · simp [h]
    · simp [h, List.filter_cons]

theorem buildDomainMap_eq_firstSeen (parse : String → Except String URL) (harData : HAR) :
    buildDomainMap parse harData.Log.Entries = firstSeenDomains parse harData := by
  unfold buildDomainMap firstSeenDomains
  rw [buildDomainMap_foldl, foldl_domainMapSet]
  simp

theorem buildDomainMap_nodup (parse : String → Except String URL) (harData : HAR) :
    (buildDomainMap parse harData.Log.Entries).Nodup := by
  rw [buildDomainMap_eq_firstSeen]
  exact firstSeen_nodup _

theorem mem_buildDomainMap (parse : String → Except String URL) (harData : HAR)
    (d : String) :
    d ∈ buildDomainMap parse harData.Log.Entries ↔
      d ≠ "" ∧ ∃ entry ∈ harData.Log.Entries, extractDomain parse entry.Request.URL = d := by
  rw [buildDomainMap_eq_firstSeen]
  unfold firstSeenDomains
  rw [mem_firstSeen]
  simp only [List.mem_filter, List.mem_map, decide_eq_true_eq]
  tauto

theorem buildDomainMap_skip (parse : String → Except String URL)
    (before after : List Entry) (entry : Entry)
    (h : extractDomain parse entry.Request.URL = "") :
    buildDomainMap parse (before ++ entry :: after) = buildDomainMap parse (before ++ after) := by
  unfold buildDomainMap
  simp only [List.foldl_append, List.foldl_cons]
  simp [h]

theorem perm_pair (r : List String) (a b : String) (hab : a ≠ b) :
    r.Perm [a, b] ↔ r = [a, b] ∨ r = [b, a] := by
  constructor
  · intro h
    have hlen := h.length_eq
    have hnd : r.Nodup := h.nodup_iff.2 (by simp [hab])
    match r, hlen, hnd, h with
    | [x, y], _, hnd, h =>
      have hx : x ∈ [a, b] := h.subset (by simp)
      have hy : y ∈ [a, b] := h.subset (by simp)
      have hxy : x ≠ y := by simpa using hnd
      simp only [List.mem_cons, List.mem_singleton, List.not_mem_nil, or_false] at hx hy
      rcases hx with rfl | rfl <;> rcases hy with rfl | rfl
      · exact absurd rfl hxy
      · exact Or.inl rfl
      · exact Or.inr rfl
      · exact absurd rfl hxy
  · rintro (rfl | rfl)
    · exact List.Perm.refl _
    · exact List.Perm.swap _ _ _

/-! ## Lemmas on the printing of integers -/

theorem digitChar_val (d : Nat) (h : d < 10) : (Nat.digitChar d).toNat - 48 = d := by
  interval_cases d <;> rfl

theorem digitsVal_append_singleton (pre : List Char) (c : Char) :
    digitsVal (pre ++ [c]) = 10 * digitsVal pre + (c.toNat - 48) := by
  simp [digitsVal, List.foldl_append]

theorem toDigitsCore_val (fuel : Nat) : ∀ (n : Nat) (acc : List Char), n < fuel →
    ∃ pre, Nat.toDigitsCore 10 fuel n acc = pre ++ acc ∧ digitsVal pre = n ∧ pre ≠ [] := by
  induction fuel with
  | zero => intro n acc h; omega
  | succ fuel ih =>
    intro n acc h
    simp only [Nat.toDigitsCore]
    split_ifs with h0
    · refine ⟨[Nat.digitChar (n % 10)], rfl, ?_, by simp⟩
      have hv := digitChar_val (n % 10) (Nat.mod_lt _ (by decide))
      simp only [digitsVal, List.foldl_cons, List.foldl_nil]
      omega
    · have hlt : n / 10 < fuel := by omega
      obtain ⟨pre, hpre, hval, _⟩ := ih (n / 10) (Nat.digitChar (n % 10) :: acc) hlt
      refine ⟨pre ++ [Nat.digitChar (n % 10)], ?_, ?_, by simp⟩
      · rw [hpre]; simp
      · rw [digitsVal_append_singleton, hval,
          digitChar_val (n % 10) (Nat.mod_lt _ (by decide))]
        omega

theorem toString_nat_val (n : Nat) :
    digitsVal (toString n).toList = n ∧ (toString n).toList ≠ [] := by
  obtain ⟨pre, hpre, hval, hne⟩ := toDigitsCore_val (n + 1) n [] (Nat.lt_succ_self n)
  have h : (toString n).toList = pre := by
    simp [toString, Nat.repr, Nat.toDigits, List.asString, hpre]
  rw [h]
  exact ⟨hval, hne⟩

theorem toString_nat_inj (a b : Nat) (h : toString a = toString b) : a = b := by
  have ha := (toString_nat_val a).1
  rw [h, (toString_nat_val b).1] at ha
  exact ha.symm

theorem toString_nat_head (n : Nat) :
    ∃ c cs, (toString n).toList = c :: cs ∧ c.isDigit = true := by
  have hne := (toString_nat_val n).2
  rcases hl : (toString n).toList with _ | ⟨c, cs⟩
  · exact absurd hl hne
  · exact ⟨c, cs, rfl, toString_nat_isDigit n c (by rw [hl]; simp)⟩

theorem toString_int_ofNat (m : Nat) : toString (Int.ofNat m) = toString m := rfl

theorem toString_int_negSucc (m : Nat) :
    toString (Int.negSucc m) = "-" ++ toString (m + 1) := rfl

theorem toString_int_inj (a b : Int) (h : toString a = toString b) : a = b := by
  have key : ∀ (m k : Nat), toString m ≠ "-" ++ toString (k + 1) := by
    intro m k hmk
    obtain ⟨c, cs, hc, hd⟩ := toString_nat_head m
    rw [hmk] at hc
    simp only [String.toList, String.data_append] at hc
    have : c = '-' := by
      simp at hc
      exact hc.1.symm
    rw [this] at hd
    exact absurd hd (by decide)
  cases a with
  | ofNat m =>
    cases b with
    | ofNat k =>
      rw [toString_int_ofNat, toString_int_ofNat] at h
      rw [toString_nat_inj m k h]
    | negSucc k =>
      rw [toString_int_ofNat, toString_int_negSucc] at h
      exact absurd h (key m k)
  | negSucc m =>
    cases b with
    | ofNat k =>
      rw [toString_int_ofNat, toString_int_negSucc] at h
      exact absurd h.symm (key k m)
    | negSucc k =>
      rw [toString_int_negSucc, toString_int_negSucc] at h
      have h2 : toString (m + 1) = toString (k + 1) := by
        have := congrArg String.data h
        simp only [String.data_append] at this
        exact String.ext (List.append_cancel_left this)
      have := toString_nat_inj _ _ h2
      have hmk : m = k := by omega
      rw [hmk]

theorem statusClass_inj (a b : Int) (h : statusClass a = statusClass b) : a = b := by
  unfold statusClass at h
  have := congrArg String.data h
  simp only [String.data_append] at this
  exact toString_int_inj a b (String.ext (List.append_cancel_left this))

theorem firstSeen_length_le (xs : List String) : (firstSeen xs).length ≤ xs.length := by
  induction xs with
  | nil => simp [firstSeen]
  | cons x xs ih =>
    simp only [firstSeen, List.length_cons]
    have := List.length_filter_le (fun y => decide (y ≠ x)) (firstSeen xs)
    omega

theorem buildDomainMap_length_le (parse : String → Except String URL) (harData : HAR) :
    (buildDomainMap parse harData.Log.Entries).length ≤ harData.Log.Entries.length := by
  rw [buildDomainMap_eq_firstSeen]
  unfold firstSeenDomains
  refine le_trans (firstSeen_length_le _) ?_
  refine le_trans (List.length_filter_le _ _) ?_
  simp

/-! ## Lemmas on the transcoding -/

theorem gbkTransform_encodable (t : GBKTable) (pre : List Char)
    (hpre : ∀ x ∈ pre, (gbkEncodeRune t x).isSome = true) :
    gbkTransform t pre = pre.flatMap (fun x => (gbkEncodeRune t x).getD []) := by
  induction pre with
  | nil => rfl
  | cons x xs ih =>
    have hx := hpre x (List.mem_cons_self _ _)
    obtain ⟨bytes, hb⟩ := Option.isSome_iff_exists.1 hx
    simp only [gbkTransform, hb, List.flatMap_cons, Option.getD_some]
    rw [ih (fun y hy => hpre y (List.mem_cons_of_mem _ hy))]

theorem gbkTransform_append (t : GBKTable) (pre rest : List Char)
    (hpre : ∀ x ∈ pre, (gbkEncodeRune t x).isSome = true) :
    gbkTransform t (pre ++ rest) = gbkTransform t pre ++ gbkTransform t rest := by
  induction pre with
  | nil => rfl
  | cons x xs ih =>
    have hx := hpre x (List.mem_cons_self _ _)
    obtain ⟨bytes, hb⟩ := Option.isSome_iff_exists.1 hx
    have ih2 := ih (fun y hy => hpre y (List.mem_cons_of_mem _ hy))
    show gbkTransform t (x :: (xs ++ rest)) = gbkTransform t (x :: xs) ++ gbkTransform t rest
    simp only [gbkTransform, hb]
    rw [ih2, List.append_assoc]

theorem gbkTransform_stop (t : GBKTable) (pre post : List Char) (c : Char)
    (hpre : ∀ x ∈ pre, (gbkEncodeRune t x).isSome = true)
    (hc : gbkEncodeRune t c = none) :
    gbkTransform t (pre ++ c :: post) = gbkTransform t pre := by
  rw [gbkTransform_append t pre _ hpre]
  simp [gbkTransform, hc]

/-! ## Lemmas on the decoder -/

theorem gbkDecode_ascii (t : GBKTable) (b : Nat) (more : List Nat) (h : b < 0x80) :
    gbkDecode t (b :: more) = Char.ofNat b :: gbkDecode t more := by
  cases more <;> simp [gbkDecode, h]

theorem gbkDecode_euro (t : GBKTable) (more : List Nat) :
    gbkDecode t (0x80 :: more) = '€' :: gbkDecode t more := by
  cases more <;> simp [gbkDecode]

theorem gbkDecode_pair (t : GBKTable) (b1 b2 : Nat) (r : Char) (more : List Nat)
    (h1 : 0x81 ≤ b1) (h2 : b1 < 0xFF) (h3 : gbkTrail b2 = true)
    (h4 : t.decode b1 b2 = some r) :
    gbkDecode t (b1 :: b2 :: more) = r :: gbkDecode t more := by
  have a1 : ¬ b1 < 0x80 := by omega
  have a2 : ¬ b1 = 0x80 := by omega
  simp [gbkDecode, a1, a2, h2, h3, h4]

theorem gbkDecode_rune (t : GBKTable) (ht : t.WellFormed) (r : Char) (bytes more : List Nat)
    (h : gbkEncodeRune t r = some bytes) :
    gbkDecode t (bytes ++ more) = r :: gbkDecode t more := by
  unfold gbkEncodeRune at h
  split_ifs at h with hascii heuro
  · cases h
    rw [List.singleton_append, gbkDecode_ascii t _ _ hascii, Char.ofNat_toNat]
  · cases h
    rw [List.singleton_append, gbkDecode_euro, heuro]
  · rcases he : t.encode r with _ | ⟨b1, b2⟩
    · rw [he] at h; cases h
    · rw [he] at h
      cases h
      obtain ⟨h1, h2, h3, h4⟩ := ht r b1 b2 he
      exact gbkDecode_pair t b1 b2 r more h1 h2 h3 h4

theorem gbkDecode_transform (t : GBKTable) (ht : t.WellFormed) (text : List Char)
    (henc : ∀ c ∈ text, (gbkEncodeRune t c).isSome = true) :
    gbkDecode t (gbkTransform t text) = text := by
  induction text with
  | nil => rfl
  | cons c cs ih =>
    obtain ⟨bytes, hb⟩ := Option.isSome_iff_exists.1 (henc c (List.mem_cons_self _ _))
    simp only [gbkTransform, hb]
    rw [gbkDecode_rune t ht c bytes _ hb, ih (fun x hx => henc x (List.mem_cons_of_mem _ hx))]

/-! ## Lemmas on the reader -/

theorem csvRun_append (st : CsvReader) (a b : List Char) :
    csvRun st (a ++ b) = (csvRun st a).bind (fun next => csvRun next b) := by
  induction a generalizing st with
  | nil => rfl
  | cons c cs ih =>
    show csvRun st (c :: (cs ++ b)) = _
    simp only [csvRun]
    rcases csvStep st c with _ | next
    · rfl
    · exact ih next

theorem csvRun_unquoted (rows : List (List String)) (cs acc : List Char)
    (h : ∀ c ∈ cs, c ≠ '"' ∧ c ≠ ',' ∧ c ≠ '\n') :
    csvRun ⟨rows, [], acc, .unquoted⟩ cs = some ⟨rows, [], acc ++ cs, .unquoted⟩ := by
  induction cs generalizing acc with
  | nil => simp [csvRun]
  | cons c cs ih =>
    obtain ⟨h1, h2, h3⟩ := h c (List.mem_cons_self _ _)
    simp only [csvRun, csvStep, if_neg h1, if_neg h2, if_neg h3]
    rw [ih (acc ++ [c]) (fun x hx => h x (List.mem_cons_of_mem _ hx))]
    simp

theorem csvRun_quoted (rows : List (List String)) (cs acc : List Char) :
    csvRun ⟨rows, [], acc, .quoted⟩ (csvEscape cs) = some ⟨rows, [], acc ++ cs, .quoted⟩ := by
  induction cs generalizing acc with
  | nil => simp [csvRun, csvEscape]
  | cons c cs ih =>
    by_cases hq : c = '"'
    · subst hq
      simp only [csvEscape, if_true, csvRun, csvStep]
      rw [ih (acc ++ ['"'])]
      simp
    · have hstep : csvStep ⟨rows, [], acc, .quoted⟩ c = some ⟨rows, [], acc ++ [c], .quoted⟩ := by
        simp [csvStep, hq]
      have hesc : csvEscape (c :: cs) = c :: csvEscape cs := by
        simp only [csvEscape, if_neg hq]
        split_ifs <;> simp_all
      rw [hesc]
      simp only [csvRun, hstep]
      rw [ih (acc ++ [c])]
      simp

theorem plain_chars (d : String) (h : fieldNeedsQuotes d = false) :
    ∀ c ∈ d.toList, c ≠ '\n' ∧ c ≠ '\r' ∧ c ≠ '"' ∧ c ≠ ',' := by
  intro c hc
  unfold fieldNeedsQuotes at h
  split_ifs at h with h1 h2 h3
  · subst h1; simp at hc
  · have hnot : ¬ (c == '\n' || c == '\r' || c == '"' || c == ',') = true :=
      fun hx => h3 (List.any_eq_true.2 ⟨c, hc, hx⟩)
    simp only [Bool.or_eq_true, beq_iff_eq, not_or] at hnot
    tauto

theorem stripCR_plain (cs : List Char) (h : ∀ c ∈ cs, c ≠ '\r') : stripCR cs = cs := by
  unfold stripCR
  split_ifs with hl
  · exact absurd rfl (h _ (List.mem_of_getLast?_eq_some hl))
  · rfl

theorem csvRun_field (rows : List (List String)) (d : String) (hne : d ≠ "") :
    csvRun (betweenRows rows) ((csvField d).toList ++ ['\n'])
      = some (betweenRows (rows ++ [[d]])) := by
  by_cases hq : fieldNeedsQuotes d = true
  · have hf : (csvField d).toList = '"' :: (csvEscape d.toList ++ ['"']) := by
      simp [csvField, hq]
    rw [hf]
    show csvRun (betweenRows rows) ('"' :: ((csvEscape d.toList ++ ['"']) ++ ['\n'])) = _
    simp only [csvRun, betweenRows, csvStep, if_true]
    rw [List.append_assoc, csvRun_append, csvRun_quoted]
    simp [csvRun, csvStep, endRow]
  · have hq2 : fieldNeedsQuotes d = false := by simpa using hq
    have hf : csvField d = d := by simp [csvField, hq2]
    have hchars := plain_chars d hq2
    rw [hf]
    rcases hd : d.toList with _ | ⟨c, cs⟩
    · exact absurd (String.ext (by simpa using hd)) hne
    · have hc := hchars c (by rw [hd]; simp)
      have hcs : ∀ x ∈ cs, x ≠ '"' ∧ x ≠ ',' ∧ x ≠ '\n' := by
        intro x hx
        have := hchars x (by rw [hd]; simp [hx])
        tauto
      have hstrip : stripCR (c :: cs) = c :: cs := by
        apply stripCR_plain
        intro x hx
        exact (hchars x (by rw [hd]; exact hx)).2.1
      have hd2 : d = String.mk (c :: cs) := String.ext (by simpa using hd)
      show csvRun (betweenRows rows) (c :: (cs ++ ['\n'])) = _
      simp only [csvRun, betweenRows, csvStep, if_neg hc.2.2.1, if_neg hc.2.2.2, if_neg hc.1]
      rw [csvRun_append, csvRun_unquoted rows cs [c] hcs]
      simp only [Option.some_bind, csvRun, csvStep, List.singleton_append]
      simp [endRow, hstrip]
      exact hd2.symm

theorem csvLines_toList (r : String) (rs : List String) :
    (csvLines (r :: rs)).toList = (r.toList ++ ['\n']) ++ (csvLines rs).toList := by
  simp [csvLines, String.toList, String.data_append]

theorem csvRun_lines (ds : List String) (rows : List (List String))
    (hne : ∀ d ∈ ds, d ≠ "") :
    csvRun (betweenRows rows) (csvLines (ds.map csvField)).toList
      = some (betweenRows (rows ++ ds.map (fun d => [d]))) := by
  induction ds generalizing rows with
  | nil => simp [csvLines, csvRun]
  | cons d ds ih =>
    rw [List.map_cons, csvLines_toList, csvRun_append,
      csvRun_field rows d (hne d (List.mem_cons_self _ _))]
    simp only [Option.some_bind]
    rw [ih _ (fun x hx => hne x (List.mem_cons_of_mem _ hx))]
    simp

theorem generateCSVText_eq (ds : List String) :
    generateCSVText ds = csvLines (("域名" :: ds).map csvField) := by
  unfold generateCSVText
  rw [foldl_csvWrite]
  rfl

theorem csvRead_generateCSVText (ds : List String) (hne : ∀ d ∈ ds, d ≠ "") :
    csvRead (generateCSVText ds) = some (["域名"] :: ds.map (fun d => [d])) := by
  have hne2 : ∀ d ∈ "域名" :: ds, d ≠ "" := by
    intro d hd
    rcases List.mem_cons.1 hd with rfl | hd
    · decide
    · exact hne d hd
  have h := csvRun_lines ("域名" :: ds) [] hne2
  unfold csvRead
  rw [generateCSVText_eq]
  simp only [betweenRows] at h
  rw [h]
  simp [csvFinish]

theorem csvRun_field_empty (rows : List (List String)) :
    csvRun (betweenRows rows) ((csvField "").toList ++ ['\n']) = some (betweenRows rows) := by
  have h : (csvField "").toList = [] := by decide
  rw [h]
  simp [csvRun, csvStep, betweenRows, endRow]

theorem csvRun_lines_all (ds : List String) (rows : List (List String)) :
    csvRun (betweenRows rows) (csvLines (ds.map csvField)).toList
      = some (betweenRows
          (rows ++ (ds.filter (fun d => decide (d ≠ ""))).map (fun d => [d]))) := by
  induction ds generalizing rows with
  | nil => simp [csvLines, csvRun]
  | cons d ds ih =>
    rw [List.map_cons, csvLines_toList, csvRun_append]
    by_cases hd : d = ""
    · subst hd
      rw [csvRun_field_empty]
      simp only [Option.some_bind]
      rw [ih rows]
      simp
    · rw [csvRun_field rows d hd]
      simp only [Option.some_bind]
      rw [ih _]
      simp [hd]

theorem csvRead_generateCSVText_all (ds : List String) :
    csvRead (generateCSVText ds)
      = some (["域名"] :: (ds.filter (fun d => decide (d ≠ ""))).map (fun d => [d])) := by
  have h := csvRun_lines_all ("域名" :: ds) []
  unfold csvRead
  rw [generateCSVText_eq]
  simp only [betweenRows] at h
  rw [h]
  simp [csvFinish]

theorem mem_csvEscape (cs : List Char) (c : Char) (h : c ∈ csvEscape cs) :
    c ∈ cs ∨ c = '"' := by
  induction cs with
  | nil => simp [csvEscape] at h
  | cons x xs ih =>
    by_cases hq : x = '"'
    · subst hq
      simp only [csvEscape, if_true, List.mem_cons] at h
      rcases h with h | h | h
      · exact Or.inr h
      · exact Or.inr h
      · rcases ih h with h | h
        · exact Or.inl (List.mem_cons_of_mem _ h)
        · exact Or.inr h
    · have hesc : csvEscape (x :: xs) = x :: csvEscape xs := by
        simp only [csvEscape, if_neg hq]
        split_ifs <;> simp_all
      rw [hesc, List.mem_cons] at h
      rcases h with h | h
      · exact Or.inl (by rw [h]; exact List.mem_cons_self _ _)
      · rcases ih h with h | h
        · exact Or.inl (List.mem_cons_of_mem _ h)
        · exact Or.inr h

theorem mem_csvField (d : String) (c : Char) (h : c ∈ (csvField d).toList) :
    c ∈ d.toList ∨ c = '"' := by
  unfold csvField at h
  split_ifs at h
  · simp only [String.toList, List.mem_cons, List.mem_append, List.not_mem_nil,
      or_false] at h
    rcases h with (h | h) | h
    · exact Or.inr h
    · exact mem_csvEscape _ _ h
    · exact Or.inr h
  · exact Or.inl h

theorem mem_csvLines (rs : List String) (c : Char) (h : c ∈ (csvLines rs).toList) :
    c = '\n' ∨ ∃ r ∈ rs, c ∈ r.toList := by
  induction rs with
  | nil => simp [csvLines] at h
  | cons r rs ih =>
    rw [csvLines_toList] at h
    simp only [List.mem_append, List.mem_singleton] at h
    rcases h with (h | h) | h
    · exact Or.inr ⟨r, List.mem_cons_self _ _, h⟩
    · exact Or.inl h
    · rcases ih h with h | ⟨x, hx, hc⟩
      · exact Or.inl h
      · exact Or.inr ⟨x, List.mem_cons_of_mem _ hx, hc⟩

theorem generateCSVText_encodable (t : GBKTable) (ds : List String)
    (hhdr : ∀ c ∈ "域名".toList, (gbkEncodeRune t c).isSome = true)
    (henc : ∀ d ∈ ds, ∀ c ∈ d.toList, (gbkEncodeRune t c).isSome = true) :
    ∀ c ∈ (generateCSVText ds).toList, (gbkEncodeRune t c).isSome = true := by
  intro c hc
  rw [generateCSVText_eq] at hc
  have hascii : ∀ x : Char, x.toNat < 0x80 → (gbkEncodeRune t x).isSome = true := by
    intro x hx
    simp [gbkEncodeRune, hx]
  rcases mem_csvLines _ c hc with h | ⟨r, hr, hcr⟩
  · rw [h]; exact hascii _ (by decide)
  · rw [List.map_cons, List.mem_cons] at hr
    rcases hr with hr | hr
    · rw [hr] at hcr
      rcases mem_csvField _ c hcr with h | h
      · exact hhdr c h
      · rw [h]; exact hascii _ (by decide)
    · obtain ⟨d, hd, hdr⟩ := List.mem_map.1 hr
      rw [← hdr] at hcr
      rcases mem_csvField _ c hcr with h | h
      · exact henc d hd c h
      · rw [h]; exact hascii _ (by decide)

theorem csvEscape_count_quote (cs : List Char) :
    (csvEscape cs).count '"' = 2 * cs.count '"' := by
  induction cs with
  | nil => rfl
  | cons c cs ih =>
    by_cases hq : c = '"'
    · subst hq
      simp only [csvEscape, if_true, List.count_cons_self, ih]
      omega
    · have hesc : csvEscape (c :: cs) = c :: csvEscape cs := by
        simp only [csvEscape, if_neg hq]
        split_ifs <;> simp_all
      rw [hesc, List.count_cons_of_ne (Ne.symm hq), List.count_cons_of_ne (Ne.symm hq), ih]

theorem gbkFragment_wellFormed : gbkFragment.WellFormed := by
  intro r b1 b2 h
  simp only [gbkFragment] at h
  split_ifs at h <;> cases h <;> subst_vars <;> simp [gbkFragment, gbkTrail]

theorem fieldNeedsQuotes_of_special (q : String)
    (hq : ',' ∈ q.toList ∨ '"' ∈ q.toList ∨ '\n' ∈ q.toList) :
    fieldNeedsQuotes q = true := by
  unfold fieldNeedsQuotes
  split_ifs with h1 h2 h3
  · subst h1; simp at hq
  · rfl
  · rfl
  · exfalso
    apply h3
    rw [List.any_eq_true]
    rcases hq with h | h | h
    · exact ⟨',', h, by decide⟩
    · exact ⟨'"', h, by decide⟩
    · exact ⟨'\n', h, by decide⟩

/-! ## Claims -/

/-- C1: for every parsed document the three counters of the counting loop
add up to the number of entries, and for a document without entries all
three counters are 0. -/
theorem count_sum_eq_entries (harData : HAR) (log : Log) :
    (countMethods harData).getCount + (countMethods harData).postCount
        + (countMethods harData).otherCount = harData.Log.Entries.length
    ∧ countMethods { Log := { log with Entries := [] } } = ⟨0, 0, 0⟩ := by
  refine ⟨?_, rfl⟩
  unfold countMethods
  rw [foldl_countStep_sum]
  simp

/-- C7: one loop iteration adds exactly 1 to exactly one counter: to the
GET counter iff the method is the string "GET", to the POST counter iff it
is "POST", to the OTHER counter in every other case; the comparison is
case-sensitive ("get", "Post" and "" count as OTHER). Over the whole loop
each counter is the number of entries of its class. -/
theorem method_bucket_exact (c : MethodCounts) (entry : Entry) (harData : HAR)
    (url : String) :
    (entry.Request.Method = "GET" ↔
        countStep c entry = { c with getCount := c.getCount + 1 })
    ∧ (entry.Request.Method = "POST" ↔
        countStep c entry = { c with postCount := c.postCount + 1 })
    ∧ ((entry.Request.Method ≠ "GET" ∧ entry.Request.Method ≠ "POST") ↔
        countStep c entry = { c with otherCount := c.otherCount + 1 })
    ∧ countStep c (mkEntry "get" url) = { c with otherCount := c.otherCount + 1 }
    ∧ countStep c (mkEntry "Post" url) = { c with otherCount := c.otherCount + 1 }
    ∧ countStep c (mkEntry "" url) = { c with otherCount := c.otherCount + 1 }
    ∧ (countMethods harData).getCount
        = harData.Log.Entries.countP (fun e => decide (e.Request.Method = "GET"))
    ∧ (countMethods harData).postCount
        = harData.Log.Entries.countP (fun e => decide (e.Request.Method = "POST"))
    ∧ (countMethods harData).otherCount
        = harData.Log.Entries.countP (fun e =>
            decide (e.Request.Method ≠ "GET" ∧ e.Request.Method ≠ "POST")) := by
  have hGP : ("GET" : String) ≠ "POST" := by decide
  refine ⟨?_, ?_, ?_, ?_, ?_, ?_, ?_, ?_, ?_⟩
  · constructor
    · intro h; simp [countStep, h]
    · intro h
      by_contra hne
      have h1 := countStep_get c entry
      rw [h] at h1
      simp [hne] at h1
  · constructor
    · intro h
      have : entry.Request.Method ≠ "GET" := by rw [h]; exact fun h' => hGP h'.symm
      simp [countStep, h, this]
    · intro h
      by_contra hne
      have h1 := countStep_post c entry
      rw [h] at h1
      simp [hne] at h1
  · constructor
    · intro h; simp [countStep, h.1, h.2]
    · intro h
      by_contra hne
      have h1 := countStep_other c entry
      rw [h] at h1
      simp [hne] at h1
  · simp [countStep, mkEntry]
  · simp [countStep, mkEntry]
  · simp [countStep, mkEntry]
  · simp [countMethods, foldl_countStep_get]
  · simp [countMethods, foldl_countStep_post]
  · simp [countMethods, foldl_countStep_other]

/-- C8: `formatFileSize` returns the sample values of the specification:
0, 512 and 1023 bytes print as integers with " byte", 1024 and 1536 as
"1.00 KB" and "1.50 KB", 1572864 as "1.50 MB", 1073741824 as "1.00 GB". -/
theorem formatFileSize_samples :
    formatFileSize 0 = "0 byte"
    ∧ formatFileSize 512 = "512 byte"
    ∧ formatFileSize 1023 = "1023 byte"
    ∧ formatFileSize 1024 = "1.00 KB"
    ∧ formatFileSize 1536 = "1.50 KB"
    ∧ formatFileSize 1572864 = "1.50 MB"
    ∧ formatFileSize 1073741824 = "1.00 GB" := by
  refine ⟨?_, ?_, ?_, ?_, ?_, ?_, ?_⟩ <;> decide

/-- C9: for every size `n ≥ 0` the unit is chosen by thresholds: below 1024
the decimal integer `n` and " byte"; from 1024 below 2^20 the value n/1024
and " KB"; from 2^20 below 2^30 the value n/2^20 and " MB"; from 2^30 on the
value n/2^30 and " GB". A scaled value is printed as an integer part, a
point and exactly two digits, and is the hundredth nearest to the quotient
of `float64(n)` by the unit; `float64(n)` is `n` below 2^53 and differs
from `n` by at most `n / 2^53` above. The unit chosen is the largest one in
which the value is at least 1. -/
theorem formatFileSize_units (n h : Nat) :
    formatFileSize n =
      (if n < KB then toString n ++ " byte"
       else if n < MB then fixed2 (hundredths (float64OfNat n) KB) ++ " KB"
       else if n < GB then fixed2 (hundredths (float64OfNat n) MB) ++ " MB"
       else fixed2 (hundredths (float64OfNat n) GB) ++ " GB")
    ∧ (if n < KB then n / KB = 0
       else if n < MB then 1 ≤ n / KB ∧ n / MB = 0
       else if n < GB then 1 ≤ n / MB ∧ n / GB = 0
       else 1 ≤ n / GB)
    ∧ (2 * (100 * float64OfNat n) ≤ 2 * (hundredths (float64OfNat n) KB * KB) + KB
        ∧ 2 * (hundredths (float64OfNat n) KB * KB) ≤ 2 * (100 * float64OfNat n) + KB)
    ∧ (2 * (100 * float64OfNat n) ≤ 2 * (hundredths (float64OfNat n) MB * MB) + MB
        ∧ 2 * (hundredths (float64OfNat n) MB * MB) ≤ 2 * (100 * float64OfNat n) + MB)
    ∧ (2 * (100 * float64OfNat n) ≤ 2 * (hundredths (float64OfNat n) GB * GB) + GB
        ∧ 2 * (hundredths (float64OfNat n) GB * GB) ≤ 2 * (100 * float64OfNat n) + GB)
    ∧ (n < 2 ^ 53 → float64OfNat n = n)
    ∧ (2 ^ 53 * float64OfNat n ≤ 2 ^ 53 * n + n
        ∧ 2 ^ 53 * n ≤ 2 ^ 53 * float64OfNat n + n)
    ∧ (fixed2 h).toList
        = (toString (h / 100)).toList
          ++ ['.', Nat.digitChar (h % 100 / 10), Nat.digitChar (h % 10)]
    ∧ (∀ c ∈ (toString (h / 100)).toList, c.isDigit = true)
    ∧ (Nat.digitChar (h % 100 / 10)).isDigit = true
    ∧ (Nat.digitChar (h % 10)).isDigit = true := by
  refine ⟨formatFileSize_cases n, ?_, ?_, ?_, ?_, float64OfNat_small n, float64OfNat_near n,
    ?_, ?_, ?_, ?_⟩
  · simp only [KB, MB, GB]
    split_ifs <;> omega
  · exact roundHalfEven_near _ _ (by decide)
  · exact roundHalfEven_near _ _ (by decide)
  · exact roundHalfEven_near _ _ (by decide)
  · simp [fixed2]
  · exact toString_nat_isDigit _
  · exact digitChar_isDigit _ (by omega)
  · exact digitChar_isDigit _ (by omega)

/-- C10: the text that `generateCSV` builds before transcoding is a table
with one column: read as comma-separated rows it is the row "域名" followed
by one row per domain, each row holding that domain as its only field, in
input order (for domains that are not the empty string, as
`extractUniqueDomains` returns them; this holds also where a domain has to
be quoted). For an arbitrary list the rows are the domains other than the
empty string, which is written as an empty line and is no row for the
reader. As text it is the header record followed by one record per
domain, each ended by a line end; for domains that need no quoting the text
is "域名\n" followed by each domain and "\n", so `n` such domains give
`n + 1` lines, and the empty list gives the header line only. -/
theorem generateCSVText_records (domains hosts plain : List String)
    (hhosts : ∀ d ∈ hosts, d ≠ "")
    (hplain : ∀ d ∈ plain, fieldNeedsQuotes d = false) :
    csvRead (generateCSVText hosts) = some (["域名"] :: hosts.map (fun d => [d]))
    ∧ csvRead (generateCSVText domains)
        = some (["域名"] :: (domains.filter (fun d => decide (d ≠ ""))).map (fun d => [d]))
    ∧ generateCSVText domains = csvLines ("域名" :: domains.map csvField)
    ∧ generateCSVText plain = "域名\n" ++ csvLines plain
    ∧ lineCount (generateCSVText plain) = plain.length + 1
    ∧ generateCSVText [] = "域名\n"
    ∧ csvRead (generateCSVText []) = some [["域名"]] := by
  have hgen : ∀ ds, generateCSVText ds = "域名\n" ++ csvLines (ds.map csvField) := by
    intro ds
    unfold generateCSVText
    rw [foldl_csvWrite]
    rfl
  have hp : generateCSVText plain = "域名\n" ++ csvLines plain := by
    rw [hgen, map_csvField_plain plain hplain]
  refine ⟨csvRead_generateCSVText hosts hhosts, csvRead_generateCSVText_all domains, ?_, hp,
    ?_, by decide, by decide⟩
  · rw [hgen]; rfl
  · rw [hp]
    have := lineCount_csvLines plain hplain
    simp only [lineCount, String.toList, String.data_append, List.count_append] at this ⊢
    rw [this]
    have h1 : List.count '\n' ("域名\n" : String).data = 1 := by decide
    rw [h1]
    omega

/-- Witness of C10 (`generateCSVText_records`): hosts with a comma, with
quotes and with a line feed are read back as they were given, and the plain
list of the round-trip example gives three lines. -/
theorem generateCSVText_records_witness :
    csvRead (generateCSVText ["x.com", "a,b", "say \"hi\"", "two\nlines", "y.org"])
        = some [["域名"], ["x.com"], ["a,b"], ["say \"hi\""], ["two\nlines"], ["y.org"]]
    ∧ generateCSVText ["say \"hi\"", "x.com"] = "域名\n\"say \"\"hi\"\"\"\nx.com\n"
    ∧ generateCSVText ["a,b", "x.com"] = csvLines ["域名", "\"a,b\"", "x.com"]
    ∧ generateCSVText ["x.com", "y.org"] = "域名\nx.com\ny.org\n"
    ∧ lineCount (generateCSVText ["x.com", "y.org"]) = 3 := by
  have h := generateCSVText_records ["a,b", "x.com"]
    ["x.com", "a,b", "say \"hi\"", "two\nlines", "y.org"] ["x.com", "y.org"]
    (by decide) (by decide)
  exact ⟨h.1, by decide, h.2.2.1, h.2.2.2.1, h.2.2.2.2.1⟩

/-- Counterexample to C2 as stated: for the entries `https://a.com/1`,
`https://b.com/2`, `https://a.com/3` the first-seen list is
`["a.com", "b.com"]`, yet `["b.com", "a.com"]` is a list that
`extractUniqueDomains` can return, so the result is neither always the
first-seen list nor the same on every run. -/
theorem extractUniqueDomains_order_counterexample :
    firstSeenDomains urlParse exampleABA = ["a.com", "b.com"]
    ∧ extractUniqueDomains urlParse exampleABA ["b.com", "a.com"]
    ∧ extractUniqueDomains urlParse exampleABA ["a.com", "b.com"]
    ∧ ¬ (∀ domains, extractUniqueDomains urlParse exampleABA domains →
          domains = firstSeenDomains urlParse exampleABA) := by
  refine ⟨by decide, by decide, by decide, ?_⟩
  intro h
  have h1 := h ["b.com", "a.com"] (by decide)
  revert h1
  decide

/-- C2 (amended): for every document the lists that `extractUniqueDomains`
can return are exactly the rearrangements of the non-empty request hosts in
first-seen order with later repeats removed: the same hosts, each once, in
an order that the map iteration picks. For the entries `https://a.com/1`,
`https://b.com/2`, `https://a.com/3` the result is `["a.com", "b.com"]` or
`["b.com", "a.com"]`. -/
theorem extractUniqueDomains_perm_firstSeen (parse : String → Except String URL)
    (harData : HAR) (domains : List String) :
    (extractUniqueDomains parse harData domains ↔
        domains.Perm (firstSeenDomains parse harData))
    ∧ (extractUniqueDomains urlParse exampleABA domains ↔
        domains = ["a.com", "b.com"] ∨ domains = ["b.com", "a.com"]) := by
  constructor
  · unfold extractUniqueDomains
    rw [buildDomainMap_eq_firstSeen]
  · unfold extractUniqueDomains
    have h : buildDomainMap urlParse exampleABA.Log.Entries = ["a.com", "b.com"] := by decide
    rw [h]
    exact perm_pair domains "a.com" "b.com" (by decide)

/-- C3: a list returned by `extractUniqueDomains` contains no string twice,
in whatever order the intermediate map is iterated. -/
theorem extractUniqueDomains_nodup (parse : String → Except String URL) (harData : HAR)
    (domains : List String) (h : extractUniqueDomains parse harData domains) :
    domains.Nodup :=
  (List.Perm.nodup_iff h).2 (buildDomainMap_nodup parse harData)

/-- Witness of C3 (`extractUniqueDomains_nodup`): the example document and
the iteration order that yields `b.com` first. -/
theorem extractUniqueDomains_nodup_witness :
    extractUniqueDomains urlParse exampleABA ["b.com", "a.com"]
    ∧ ["b.com", "a.com"].Nodup :=
  ⟨by decide, extractUniqueDomains_nodup urlParse exampleABA ["b.com", "a.com"] (by decide)⟩

/-- C4: a list returned by `extractUniqueDomains` never contains the empty
string. When the URL of an entry does not parse, `extractDomain` returns ""
(it is a total function: no error value, no abort), and an entry whose
extracted host is "" leaves the map as it is while the entries before and
after it are processed as usual. -/
theorem extractUniqueDomains_no_empty (parse : String → Except String URL) (harData : HAR)
    (domains : List String) (urlStr err : String) (before after : List Entry)
    (entry : Entry)
    (hres : extractUniqueDomains parse harData domains)
    (hfail : parse urlStr = .error err)
    (hskip : extractDomain parse entry.Request.URL = "") :
    "" ∉ domains
    ∧ extractDomain parse urlStr = ""
    ∧ buildDomainMap parse (before ++ entry :: after)
        = buildDomainMap parse (before ++ after) := by
  refine ⟨?_, ?_, buildDomainMap_skip parse before after entry hskip⟩
  · intro hmem
    have h1 := (List.Perm.mem_iff hres).1 hmem
    exact ((mem_buildDomainMap parse harData "").1 h1).1 rfl
  · simp [extractDomain, hfail]

/-- Witness of C4 (`extractUniqueDomains_no_empty`): a document whose second
URL has an unclosed bracket (`url.Parse` fails) and whose third URL has no
host; only the host of the first and of the last entry are returned. -/
theorem extractUniqueDomains_no_empty_witness :
    extractUniqueDomains urlParse
        (mkHAR [mkEntry "GET" "https://a.com/1", mkEntry "GET" "http://[::1",
          mkEntry "GET" "/local/path", mkEntry "POST" "https://b.com/2"])
        ["a.com", "b.com"]
    ∧ urlParse "http://[::1" = .error "missing ']' in host"
    ∧ extractDomain urlParse (mkEntry "GET" "/local/path").Request.URL = ""
    ∧ "" ∉ ["a.com", "b.com"]
    ∧ extractDomain urlParse "http://[::1" = ""
    ∧ buildDomainMap urlParse
          ([mkEntry "GET" "https://a.com/1"]
            ++ mkEntry "GET" "/local/path" :: [mkEntry "POST" "https://b.com/2"])
        = buildDomainMap urlParse
          ([mkEntry "GET" "https://a.com/1"] ++ [mkEntry "POST" "https://b.com/2"]) :=
  have h := extractUniqueDomains_no_empty urlParse
    (mkHAR [mkEntry "GET" "https://a.com/1", mkEntry "GET" "http://[::1",
      mkEntry "GET" "/local/path", mkEntry "POST" "https://b.com/2"])
    ["a.com", "b.com"] "http://[::1" "missing ']' in host"
    [mkEntry "GET" "https://a.com/1"] [mkEntry "POST" "https://b.com/2"]
    (mkEntry "GET" "/local/path") (by decide) (by decide) (by decide)
  ⟨by decide, by decide, by decide, h.1, h.2.1, h.2.2⟩

/-- C5: when the uploaded bytes fail to parse, the upload handler answers
with a redirect to "/?error=1" and leaves `currentHARData` as it was. After
any upload request the variable holds either what it held before or a
document that `json.Unmarshal` returned without error, never a partly
decoded one. -/
theorem upload_parse_failure_keeps_session (unmarshal : String → Except String HAR)
    (filename content err : String) (currentHARData : Option HAR) (r : UploadRequest)
    (hparse : unmarshal content = .error err) :
    uploadHandler unmarshal (postUpload filename content) currentHARData
        = (currentHARData, .redirect "/?error=1" StatusFound)
    ∧ ((uploadHandler unmarshal r currentHARData).1 = currentHARData
        ∨ ∃ c harData, unmarshal c = .ok harData
            ∧ (uploadHandler unmarshal r currentHARData).1 = some harData) := by
  constructor
  · simp [uploadHandler, postUpload, hparse]
  · unfold uploadHandler
    split_ifs with hm
    · exact Or.inl rfl
    · rcases hf : r.multipartForm with _ | e
      · rcases hh : r.harfile with e | file
        · exact Or.inl rfl
        · rcases hc : file.content with e | c
          · simp [hc]
          · rcases hu : unmarshal c with e | harData
            · simp [hc, hu]
            · right
              exact ⟨c, harData, hu, by simp [hc, hu]⟩
      · exact Or.inl rfl

/-- Witness of C5 (`upload_parse_failure_keeps_session`): with the example
document loaded, an upload of bytes that are no JSON text is answered with
the error redirect and the example document stays loaded. -/
theorem upload_parse_failure_keeps_session_witness :
    jsonUnmarshal "garbage" = .error "invalid character"
    ∧ uploadHandler jsonUnmarshal (postUpload "a.har" "garbage") (some exampleABA)
        = (some exampleABA, .redirect "/?error=1" StatusFound)
    ∧ ((uploadHandler jsonUnmarshal (postUpload "b.har" "\x7b\"log\":") (some exampleABA)).1
          = some exampleABA
        ∨ ∃ c harData, jsonUnmarshal c = .ok harData
            ∧ (uploadHandler jsonUnmarshal (postUpload "b.har" "\x7b\"log\":")
                (some exampleABA)).1 = some harData) :=
  have h := upload_parse_failure_keeps_session jsonUnmarshal "a.har" "garbage"
    "invalid character" (some exampleABA) (postUpload "b.har" "\x7b\"log\":") (by decide)
  ⟨by decide, h.1, h.2⟩

/-- Counterexample to C6 as stated: the well-formed inputs `{}` and
`{"foo":1}` contain no "log" object, yet `json.Unmarshal` accepts both and
the upload handler replaces the loaded document by the empty document and
renders the page instead of answering with the error redirect. -/
theorem upload_without_log_counterexample :
    jsonUnmarshal "\x7b\x7d" = .ok zeroHAR
    ∧ jsonUnmarshal "\x7b\"foo\":1\x7d" = .ok zeroHAR
    ∧ uploadHandler jsonUnmarshal (postUpload "a.har" "\x7b\x7d") (some exampleABA)
        = (some zeroHAR, .page ⟨some zeroHAR, some "a.har", some "2 byte", ""⟩)
    ∧ uploadHandler jsonUnmarshal (postUpload "a.har" "\x7b\"foo\":1\x7d") (some exampleABA)
        = (some zeroHAR, .page ⟨some zeroHAR, some "a.har", some "9 byte", ""⟩)
    ∧ uploadHandler jsonUnmarshal (postUpload "a.har" "\x7b\x7d") (some exampleABA)
        ≠ (some exampleABA, .redirect "/?error=1" StatusFound) := by
  refine ⟨?_, ?_, ?_, ?_, ?_⟩ <;> decide

/-- C6 (amended): the upload is rejected, with the error redirect and the
session unchanged, exactly when `json.Unmarshal` returns an error; the
handler makes no check of its own on the root shape, and after a decoding
without error the session holds the decoded document. The inputs `{}` and
`{"foo":1}`, which contain no "log" object, are decoded without error to the
zero-valued document, and that document replaces the session. -/
theorem upload_rejected_iff_unmarshal_fails (unmarshal : String → Except String HAR)
    (filename content : String) (currentHARData : Option HAR) :
    ((∃ err, unmarshal content = .error err) ↔
        uploadHandler unmarshal (postUpload filename content) currentHARData
          = (currentHARData, .redirect "/?error=1" StatusFound))
    ∧ (uploadHandler unmarshal (postUpload filename content) currentHARData).1
        = (match unmarshal content with
           | .ok harData => some harData
           | .error _ => currentHARData)
    ∧ jsonUnmarshal "\x7b\x7d" = .ok zeroHAR
    ∧ jsonUnmarshal "\x7b\"foo\":1\x7d" = .ok zeroHAR
    ∧ (uploadHandler jsonUnmarshal (postUpload filename "\x7b\x7d") currentHARData).1
        = some zeroHAR
    ∧ (uploadHandler jsonUnmarshal (postUpload filename "\x7b\"foo\":1\x7d")
        currentHARData).1 = some zeroHAR := by
  have h1 : jsonUnmarshal "\x7b\x7d" = .ok zeroHAR := by decide
  have h2 : jsonUnmarshal "\x7b\"foo\":1\x7d" = .ok zeroHAR := by decide
  refine ⟨?_, ?_, h1, h2, ?_, ?_⟩
  · constructor
    · rintro ⟨err, h⟩
      simp [uploadHandler, postUpload, h]
    · intro h
      rcases hu : unmarshal content with e | harData
      · exact ⟨e, rfl⟩
      · simp [uploadHandler, postUpload, hu] at h
  · rcases hu : unmarshal content with e | harData <;>
      simp [uploadHandler, postUpload, hu]
  · simp [uploadHandler, postUpload, h1]
  · simp [uploadHandler, postUpload, h2]

/-- Counterexample to C13 as stated: after a successful upload the session
holds a document with one entry, yet the index handler passes no document
to the template: the listing block is not rendered and no row is shown. -/
theorem index_ignores_session_counterexample :
    (uploadHandler jsonUnmarshal (postUpload "a.har" oneEntryJSON) none).1 = some oneEntryHAR
    ∧ indexHandler (some oneEntryHAR) = (some oneEntryHAR, .page emptyShell)
    ∧ rendersListing emptyShell = false
    ∧ listingRows emptyShell = []
    ∧ oneEntryHAR.Log.Entries ≠ [] := by
  refine ⟨?_, ?_, ?_, ?_, ?_⟩ <;> decide

/-- C13 (amended): GET / renders the empty shell (upload form only, no
summary, no table) whatever the session holds, and leaves the session as it
is. The populated listing of a document, one row per entry in order, is
rendered in the response to the successful POST /upload that stores the
document. -/
theorem index_renders_empty_shell (currentHARData : Option HAR)
    (unmarshal : String → Except String HAR) (filename content : String) (harData : HAR)
    (hok : unmarshal content = .ok harData) :
    indexHandler currentHARData = (currentHARData, .page emptyShell)
    ∧ rendersListing emptyShell = false
    ∧ listingRows emptyShell = []
    ∧ ∃ data, uploadHandler unmarshal (postUpload filename content) currentHARData
          = (some harData, .page data)
        ∧ rendersListing data = true
        ∧ listingRows data = harData.Log.Entries := by
  refine ⟨rfl, rfl, rfl, ?_⟩
  refine ⟨{ HARData := some harData, FileName := some filename,
            FileSize := some (formatFileSize content.utf8ByteSize),
            MethodCountText := methodCountText (countMethods harData) }, ?_, rfl, rfl⟩
  simp [uploadHandler, postUpload, hok]

/-- Witness of C13 amended (`index_renders_empty_shell`): the upload of a
document with one entry renders one row, the index page after it none. -/
theorem index_renders_empty_shell_witness :
    jsonUnmarshal oneEntryJSON = .ok oneEntryHAR
    ∧ indexHandler (some oneEntryHAR) = (some oneEntryHAR, .page emptyShell)
    ∧ ∃ data, uploadHandler jsonUnmarshal (postUpload "a.har" oneEntryJSON) (some oneEntryHAR)
          = (some oneEntryHAR, .page data)
        ∧ rendersListing data = true
        ∧ listingRows data = oneEntryHAR.Log.Entries :=
  have h := index_renders_empty_shell (some oneEntryHAR) jsonUnmarshal "a.har" oneEntryJSON
    oneEntryHAR (by decide)
  ⟨by decide, h.1, h.2.2.2⟩

/-- C14: the reload handler empties the session from any state and answers
with a redirect to "/"; a second call leaves the session empty and gives
the same answer. -/
theorem reload_clears_session (currentHARData : Option HAR) :
    reloadHandler currentHARData = (none, .redirect "/" StatusFound)
    ∧ reloadHandler (reloadHandler currentHARData).1 = (none, .redirect "/" StatusFound)
    ∧ (reloadHandler none).1 = none
    ∧ StatusFound = 302 :=
  ⟨rfl, rfl, rfl, rfl⟩

/-- Counterexample to C15 as stated: a POST to /upload without a file under
`harfile` is answered with status 500 and an error message, not with a
redirect to "/". -/
theorem upload_missing_file_counterexample :
    uploadHandler jsonUnmarshal (postWithoutFile "http: no such file") (some exampleABA)
        = (some exampleABA, .error "获取文件失败: http: no such file" 500)
    ∧ (uploadHandler jsonUnmarshal (postWithoutFile "http: no such file") (some exampleABA)).2
        ≠ .redirect "/" StatusFound := by
  refine ⟨?_, ?_⟩ <;> decide

/-- C15 (amended): when a POST to /upload whose multipart form parses
carries no file in the field `harfile`, the upload handler answers with
status 500 and the message "获取文件失败: " followed by the error of
`r.FormFile`; when the form of the POST does not parse, it answers with
status 500 and the message "解析表单失败: " followed by the error of
`r.ParseMultipartForm`. In both cases the session is unchanged and the
answer is no redirect. The redirect to "/" is the answer to a request whose
method is not POST. -/
theorem upload_missing_file_is_error (unmarshal : String → Except String HAR)
    (err formErr : String) (harfile : Except String UploadedFile)
    (currentHARData : Option HAR) (r : UploadRequest)
    (hmethod : r.Method ≠ "POST") :
    uploadHandler unmarshal (postWithoutFile err) currentHARData
        = (currentHARData, .error ("获取文件失败: " ++ err) StatusInternalServerError)
    ∧ uploadHandler unmarshal
          { Method := "POST", multipartForm := some formErr, harfile := harfile }
          currentHARData
        = (currentHARData, .error ("解析表单失败: " ++ formErr) StatusInternalServerError)
    ∧ StatusInternalServerError = 500
    ∧ uploadHandler unmarshal r currentHARData
        = (currentHARData, .redirect "/" StatusFound) := by
  refine ⟨?_, ?_, rfl, ?_⟩
  · simp [uploadHandler, postWithoutFile]
  · simp [uploadHandler]
  · simp [uploadHandler, hmethod]

/-- Witness of C15 amended (`upload_missing_file_is_error`): with the example
document loaded, a POST without file, a POST whose form does not parse, and
a GET request to /upload. -/
theorem upload_missing_file_is_error_witness :
    uploadHandler jsonUnmarshal (postWithoutFile "http: no such file") (some exampleABA)
        = (some exampleABA,
            .error "获取文件失败: http: no such file" StatusInternalServerError)
    ∧ uploadHandler jsonUnmarshal
          { Method := "POST", multipartForm := some "request Content-Type isn't multipart/form-data",
            harfile := .error "http: no such file" }
          (some exampleABA)
        = (some exampleABA,
            .error "解析表单失败: request Content-Type isn't multipart/form-data"
              StatusInternalServerError)
    ∧ uploadHandler jsonUnmarshal
          { Method := "GET", multipartForm := none, harfile := .error "http: no such file" }
          (some exampleABA)
        = (some exampleABA, .redirect "/" StatusFound) :=
  have h := upload_missing_file_is_error jsonUnmarshal "http: no such file"
    "request Content-Type isn't multipart/form-data" (.error "http: no such file")
    (some exampleABA)
    { Method := "GET", multipartForm := none, harfile := .error "http: no such file" }
    (by decide)
  ⟨h.1, h.2.1, h.2.2.2⟩

/-- C16, the code at the failing input 404: the claim gives status 404 the
client-error class of status 400, and the style sheet names its four rules
after the families (`status-200`, `status-300`, `status-400`,
`status-500`); the template prints the full code instead, so 404 gets the
class `status-404`, which differs from `status-400` and matches no rule, and
the entry gets no colour. The same holds for 201 against 200. -/
theorem statusClass_failing_input :
    statusClass 404 = "status-404"
    ∧ statusClass 400 = "status-400"
    ∧ statusClass 404 ≠ statusClass 400
    ∧ statusColor (statusClass 400) = some "red"
    ∧ statusColor (statusClass 404) = none
    ∧ statusClass 201 ≠ statusClass 200
    ∧ statusColor (statusClass 200) = some "green"
    ∧ statusColor (statusClass 201) = none := by
  refine ⟨?_, ?_, ?_, ?_, ?_, ?_, ?_, ?_⟩ <;> decide

/-- What line 550 of the template and the style sheet do for every status
code: the class is `status-` followed by the full code, two statuses get the
same class only when they are equal, and a colour rule matches for the
codes 200, 300, 400 and 500 and for no other code. -/
theorem statusClass_exact (a b : Int) :
    statusClass a = "status-" ++ toString a
    ∧ (statusClass a = statusClass b ↔ a = b)
    ∧ (statusColor (statusClass a) = some "green" ↔ a = 200)
    ∧ (statusColor (statusClass a) = some "orange" ↔ a = 300)
    ∧ (statusColor (statusClass a) = some "red" ↔ a = 400)
    ∧ (statusColor (statusClass a) = some "darkred" ↔ a = 500)
    ∧ (statusColor (statusClass a) = none ↔ a ≠ 200 ∧ a ≠ 300 ∧ a ≠ 400 ∧ a ≠ 500) := by
  have h200 : statusClass a = "status-200" ↔ a = 200 :=
    ⟨fun h => statusClass_inj a 200 (h.trans (by decide)), fun h => by rw [h]; decide⟩
  have h300 : statusClass a = "status-300" ↔ a = 300 :=
    ⟨fun h => statusClass_inj a 300 (h.trans (by decide)), fun h => by rw [h]; decide⟩
  have h400 : statusClass a = "status-400" ↔ a = 400 :=
    ⟨fun h => statusClass_inj a 400 (h.trans (by decide)), fun h => by rw [h]; decide⟩
  have h500 : statusClass a = "status-500" ↔ a = 500 :=
    ⟨fun h => statusClass_inj a 500 (h.trans (by decide)), fun h => by rw [h]; decide⟩
  refine ⟨rfl, ⟨statusClass_inj a b, fun h => by rw [h]⟩, ?_, ?_, ?_, ?_, ?_⟩ <;>
    · unfold statusColor
      simp only [h200, h300, h400, h500]
      by_cases e2 : a = 200 <;> by_cases e3 : a = 300 <;> by_cases e4 : a = 400 <;>
        by_cases e5 : a = 500 <;> simp [e2, e3, e4, e5]

/-- C17: every non-empty host that `extractDomain` extracts from an entry of
the document is a member of the list `extractUniqueDomains` returns; the
members of that list are exactly the non-empty hosts of the entries, and the
list is not longer than the list of entries. -/
theorem extractUniqueDomains_complete (parse : String → Except String URL) (harData : HAR)
    (domains : List String) (entry : Entry)
    (hres : extractUniqueDomains parse harData domains)
    (hmem : entry ∈ harData.Log.Entries)
    (hne : extractDomain parse entry.Request.URL ≠ "") :
    extractDomain parse entry.Request.URL ∈ domains
    ∧ (∀ d, d ∈ domains ↔
        d ≠ "" ∧ ∃ e ∈ harData.Log.Entries, extractDomain parse e.Request.URL = d)
    ∧ domains.length ≤ harData.Log.Entries.length := by
  have hiff : ∀ d, d ∈ domains ↔
      d ≠ "" ∧ ∃ e ∈ harData.Log.Entries, extractDomain parse e.Request.URL = d := by
    intro d
    rw [List.Perm.mem_iff hres]
    exact mem_buildDomainMap parse harData d
  refine ⟨(hiff _).2 ⟨hne, entry, hmem, rfl⟩, hiff, ?_⟩
  rw [List.Perm.length_eq hres]
  exact buildDomainMap_length_le parse harData

/-- Witness of C17 (`extractUniqueDomains_complete`): the example document
with three entries and two hosts. -/
theorem extractUniqueDomains_complete_witness :
    extractUniqueDomains urlParse exampleABA ["b.com", "a.com"]
    ∧ "a.com" ∈ ["b.com", "a.com"]
    ∧ ["b.com", "a.com"].length ≤ exampleABA.Log.Entries.length :=
  have h := extractUniqueDomains_complete urlParse exampleABA ["b.com", "a.com"]
    (mkEntry "GET" "https://a.com/3") (by decide) (by decide) (by decide)
  ⟨by decide, h.1, h.2.2⟩

/-- C11: round trip of the export. For a well-formed code table that has the
two characters of the header, and for every list of non-empty domains whose
characters all have a GBK encoding, decoding `generateCSV` from GBK and
reading the text as comma-separated rows gives the row "域名" followed by
one row per domain, in order. A domain that contains a comma, a quote or a
line feed is written between quotes with every quote of it doubled, and is
read back unchanged like the others. -/
theorem csv_round_trip (t : GBKTable) (ds : List String) (q : String)
    (ht : t.WellFormed)
    (hhdr : ∀ c ∈ "域名".toList, (gbkEncodeRune t c).isSome = true)
    (hne : ∀ d ∈ ds, d ≠ "")
    (henc : ∀ d ∈ ds, ∀ c ∈ d.toList, (gbkEncodeRune t c).isSome = true)
    (hq : ',' ∈ q.toList ∨ '"' ∈ q.toList ∨ '\n' ∈ q.toList) :
    csvRead (String.mk (gbkDecode t (generateCSV t ds)))
        = some (["域名"] :: ds.map (fun d => [d]))
    ∧ csvField q = String.mk ('"' :: csvEscape q.toList ++ ['"'])
    ∧ (csvEscape q.toList).count '"' = 2 * q.toList.count '"' := by
  refine ⟨?_, ?_, csvEscape_count_quote _⟩
  · unfold generateCSV
    rw [gbkDecode_transform t ht _ (generateCSVText_encodable t ds hhdr henc)]
    exact csvRead_generateCSVText ds hne
  · simp [csvField, fieldNeedsQuotes_of_special q hq]

/-- Witness of C11 (`csv_round_trip`): the domains `x.com` and `y.org` of
the specification example, and a list with a comma, quotes, a line feed and
Chinese characters. -/
theorem csv_round_trip_witness :
    (csvRead (String.mk (gbkDecode gbkFragment (generateCSV gbkFragment ["x.com", "y.org"])))
        = some [["域名"], ["x.com"], ["y.org"]])
    ∧ csvRead (String.mk (gbkDecode gbkFragment
          (generateCSV gbkFragment ["a,b", "say \"hi\"", "two\nlines", "中文.com"])))
        = some [["域名"], ["a,b"], ["say \"hi\""], ["two\nlines"], ["中文.com"]]
    ∧ csvField "say \"hi\"" = "\"say \"\"hi\"\"\"" :=
  have h1 := csv_round_trip gbkFragment ["x.com", "y.org"] "a,b" gbkFragment_wellFormed
    (by decide) (by decide) (by decide) (by decide)
  have h2 := csv_round_trip gbkFragment ["a,b", "say \"hi\"", "two\nlines", "中文.com"]
    "say \"hi\"" gbkFragment_wellFormed (by decide) (by decide) (by decide) (by decide)
  ⟨h1.1, h2.1, by decide⟩

/-- What `generateCSV` returns when the text of the table holds a character
without GBK encoding: the encoding of the text before the first such
character, rune by rune, and nothing else. -/
theorem generateCSV_stops_at_unencodable (t : GBKTable) (domains : List String)
    (pre post : List Char) (c : Char)
    (htext : (generateCSVText domains).toList = pre ++ c :: post)
    (hpre : ∀ x ∈ pre, (gbkEncodeRune t x).isSome = true)
    (hc : gbkEncodeRune t c = none) :
    generateCSV t domains = gbkTransform t pre
    ∧ generateCSV t domains = pre.flatMap (fun x => (gbkEncodeRune t x).getD []) := by
  have h : generateCSV t domains = gbkTransform t pre := by
    unfold generateCSV
    rw [htext]
    exact gbkTransform_stop t pre post c hpre hc
  exact ⟨h, h.trans (gbkTransform_encodable t pre hpre)⟩

/-- C12, the code at the failing input: a document with the hosts `a.com`,
`한국.kr` and `b.com`. The host `한국.kr` is extracted as it stands and its
first character has no GBK encoding. The claim expects a substitute for
that character and a row for every domain; `generateCSV` returns the header
and the row of `a.com` only, the same bytes as for the single domain
`a.com`: the export ends before `한`, the row of `한국.kr` and the row of
`b.com` are missing. The same happens with U+1F600 in place of the Korean
host. -/
theorem generateCSV_failing_input :
    extractDomain urlParse "http://한국.kr/x" = "한국.kr"
    ∧ extractUniqueDomains urlParse
        (mkHAR [mkEntry "GET" "http://a.com/", mkEntry "GET" "http://한국.kr/x",
          mkEntry "GET" "http://b.com/"])
        ["a.com", "한국.kr", "b.com"]
    ∧ gbkEncodeRune gbkFragment '한' = none
    ∧ generateCSVText ["a.com", "한국.kr", "b.com"] = "域名\na.com\n한국.kr\nb.com\n"
    ∧ generateCSV gbkFragment ["a.com", "한국.kr", "b.com"]
        = [0xD3, 0xF2, 0xC3, 0xFB, 10, 97, 46, 99, 111, 109, 10]
    ∧ generateCSV gbkFragment ["a.com", "한국.kr", "b.com"] = generateCSV gbkFragment ["a.com"]
    ∧ generateCSV gbkFragment ["a.com", "b.com"]
        = [0xD3, 0xF2, 0xC3, 0xFB, 10, 97, 46, 99, 111, 109, 10, 98, 46, 99, 111, 109, 10]
    ∧ gbkEncodeRune gbkFragment grinningFace = none
    ∧ generateCSV gbkFragment ["a.com", String.mk [grinningFace, '.', 'c'], "b.com"]
        = generateCSV gbkFragment ["a.com"] := by
  refine ⟨?_, ?_, ?_, ?_, ?_, ?_, ?_, ?_, ?_⟩ <;> decide

end Hars
